import Mathlib

/-
Verification development for the kafka-pixy message-stream engine
(`consumer/msgstream/msgstream.go`) and graceful producer
(`pixy/kafkaproducer.go`).

Modelling conventions:
* Go `int64` quantities (offsets, lags, times, durations) are modelled as
  unbounded `Int`: they change by small additive steps, so 64-bit overflow is
  unreachable from any realistic value.
* The `fetchSize` field is a Go `int32` that the code doubles
  (`ms.fetchSize *= 2`), which reaches the int32 boundary in at most 31
  steps; its arithmetic is therefore modelled with explicit two's-complement
  wrapping (`wrap32`), matching Go's defined signed-overflow behaviour.
* Channels are modelled by explicit event-step machines: each select-loop
  becomes a step function over a state record, an event fires only when the
  corresponding channel arm is enabled (nil channels disable arms), and
  sends performed by the loop become elements of an output list.
* `sarama.OffsetNewest = -1` and `sarama.OffsetOldest = -2` as in sarama.
-/

/-- Kafka protocol error codes used by the code (`sarama.KError`). -/
inductive KErr
  | noError
  | offsetOutOfRange
  | messageTooLarge
  | incompleteResponse
  | other (code : Nat)
deriving DecidableEq, Repr

/-- Go `error` values that flow through the code: protocol errors,
configuration errors and opaque network/client errors. -/
inductive GoErr
  | kerr (e : KErr)
  | configurationError (msg : String)
  | netError (n : Nat)
deriving DecidableEq, Repr

/-- `sarama.OffsetNewest`. -/
def offsetNewest : Int := -1

/-- `sarama.OffsetOldest`. -/
def offsetOldest : Int := -2

/-- The configuration values the modelled code reads
(`sarama.Config.Consumer` plus the error-channel gate). -/
structure Config where
  fetchDefault : Int
  fetchMax : Int
  fetchMin : Int
  maxWaitTimeMs : Int
  retryBackoff : Int
  channelBufferSize : Nat
  returnErrors : Bool
deriving DecidableEq, Repr

/-- Two's-complement wrap of an integer into the `int32` range
`[-2^31, 2^31)`, Go's semantics for overflowing `int32` arithmetic. -/
def wrap32 (n : Int) : Int := (n + 2147483648) % 4294967296 - 2147483648

/-- One decoded message with its offset, as one element of
`msgBlock.Messages()` inside a fetch response block. -/
structure MsgEntry where
  offset : Int
  key : List Nat
  value : List Nat
deriving DecidableEq, Repr

/-- One `sarama.MessageBlock` of a fetch response: `Messages()` flattens the
(possibly compressed) inner messages. -/
structure MessageBlock where
  messages : List MsgEntry
deriving DecidableEq, Repr

/-- One `sarama.FetchResponseBlock` for a topic/partition. -/
structure FetchResponseBlock where
  blockErr : KErr
  msgSetMessages : List MessageBlock
  partialTrailingMessage : Bool
  highWaterMarkOffset : Int
deriving DecidableEq, Repr

/-- `instanceID`: key of the factory's `children` map. -/
structure InstanceID where
  topic : String
  partition : Int
deriving DecidableEq, Repr

/-- The two `GetOffset` calls `chooseStartingOffset` makes against the
cluster client, with their results (a lookup may fail). -/
structure ClusterOffsets where
  newestRes : Except GoErr Int
  oldestRes : Except GoErr Int
deriving Repr

/-- `factory.chooseStartingOffset`: queries newest then oldest boundary and
resolves the requested offset against them. -/
def chooseStartingOffset (c : ClusterOffsets) (offset : Int) : Except GoErr Int :=
  match c.newestRes with
  | .error e => .error e
  | .ok newestOffset =>
    match c.oldestRes with
    | .error e => .error e
    | .ok oldestOffset =>
      if offset = offsetNewest ∨ offset > newestOffset then .ok newestOffset
      else if offset = offsetOldest ∨ offset < oldestOffset then .ok oldestOffset
      else .ok offset

/-- Per-stream mutable counters of `msgStream` (`ms.offset`, `ms.fetchSize`,
`ms.lag`) together with its identity. -/
structure StreamCore where
  topic : String
  partition : Int
  offset : Int
  fetchSize : Int
  lag : Int
deriving DecidableEq, Repr

/-- The factory state the spawn path touches: the keys registered in the
`children` map. -/
structure FactoryState where
  children : List InstanceID
deriving DecidableEq, Repr

/-- The error message of the duplicate-spawn `sarama.ConfigurationError`. -/
def alreadyConsumingMsg : String := "That topic/partition is already being consumed"

/-- Everything `factory.SpawnMessageStream` returns or does: the `(T, int64,
error)` triple, the post-state of the `children` map, and the workers
published to the mapper via `WorkerSpawned`. -/
structure SpawnOutcome where
  stream : Option StreamCore
  actualOffset : Int
  spawnErr : Option GoErr
  children : List InstanceID
  publishedToMapper : List InstanceID
deriving DecidableEq, Repr

/-- `factory.SpawnMessageStream`: resolve the starting offset, fail on a
duplicate `(topic, partition)`, otherwise spawn a stream (initial
`fetchSize = Consumer.Fetch.Default`, `offset = concreteOffset`, `lag = 0`),
register it and publish it to the mapper. -/
def spawnMessageStream (cfg : Config) (c : ClusterOffsets) (st : FactoryState)
    (topic : String) (partition : Int) (offset : Int) : SpawnOutcome :=
  match chooseStartingOffset c offset with
  | .error e => ⟨none, offsetNewest, some e, st.children, []⟩
  | .ok concreteOffset =>
    let id : InstanceID := ⟨topic, partition⟩
    if id ∈ st.children then
      ⟨none, offsetNewest, some (.configurationError alreadyConsumingMsg),
        st.children, []⟩
    else
      ⟨some ⟨topic, partition, concreteOffset, cfg.fetchDefault, 0⟩,
        concreteOffset, none, st.children ++ [id], [id]⟩

/-- A `sarama.FetchResponse`: `GetBlock(topic, partition)` looks a block up
by topic/partition key. -/
structure FetchResponse where
  blocks : List (InstanceID × FetchResponseBlock)
deriving DecidableEq, Repr

/-- `FetchResponse.GetBlock`. -/
def FetchResponse.getBlock (r : FetchResponse) (topic : String) (partition : Int) :
    Option FetchResponseBlock :=
  (r.blocks.find? (fun b => decide (b.1 = InstanceID.mk topic partition))).map Prod.snd

/-- `consumer.Message`: the user-visible record built in `parseFetchResult`. -/
structure ConsumerMessage where
  topic : String
  partition : Int
  key : List Nat
  value : List Nat
  offset : Int
  highWaterMark : Int
deriving DecidableEq, Repr

/-- `fetchRes`: reply to one fetch request (response or error). -/
structure FetchRes where
  response : Option FetchResponse
  err : Option GoErr
deriving DecidableEq, Repr

/-- All entries of a block's message set, in wire order (the nested loop of
`parseFetchResult` walks exactly this list). -/
def flatEntries (b : FetchResponseBlock) : List MsgEntry :=
  (b.msgSetMessages.map MessageBlock.messages).flatten

/-- `ms.fetchSize *= 2` followed by the cap at `Consumer.Fetch.Max` (applied
only when `Max > 0`); the doubling is Go `int32` arithmetic and wraps. -/
def cappedDouble (cfg : Config) (fetchSize : Int) : Int :=
  let doubled := wrap32 (2 * fetchSize)
  if cfg.fetchMax > 0 ∧ doubled > cfg.fetchMax then cfg.fetchMax else doubled

/-- Result of `msgStream.parseFetchResult`: the updated stream counters, the
`([]*consumer.Message, error)` return value, and the errors passed to
`reportError` during the call. -/
structure ParsedFetch where
  state : StreamCore
  result : Except GoErr (List ConsumerMessage)
  reported : List GoErr
deriving Repr

/-- The messages kept by the parse loop: entries of the block whose offset is
not below the stream's current offset (`if msg.Offset < ms.offset continue`),
in order. -/
def keptEntries (ms : StreamCore) (block : FetchResponseBlock) : List MsgEntry :=
  (flatEntries block).filter (fun m => ! decide (m.offset < ms.offset))

/-- The `consumer.Message` literal built by the parse loop for one kept
entry. -/
def mkConsumerMsg (ms : StreamCore) (hwm : Int) (m : MsgEntry) : ConsumerMessage :=
  ⟨ms.topic, ms.partition, m.key, m.value, m.offset, hwm⟩

/-- The value of `ms.lag` after the parse loop: the loop assigns
`block.HighWaterMarkOffset - msg.Offset` for each kept entry, so it ends at
the last kept entry's value (unchanged when nothing is kept). -/
def succLag (ms : StreamCore) (block : FetchResponseBlock) : Int :=
  match (keptEntries ms block).getLast? with
  | some m => block.highWaterMarkOffset - m.offset
  | none => ms.lag

/-- `msgStream.parseFetchResult`. On the empty/partial-trailing path it
doubles or caps `fetchSize`, or — at the max — reports `ErrMessageTooLarge`
and skips one offset. On the success path it resets `fetchSize` to Default,
filters out entries below the current offset, sets `lag` to
`HighWaterMarkOffset - msg.Offset` of the last kept entry, and returns the
kept messages (or `ErrIncompleteResponse` when none survive). -/
def parseFetchResult (cfg : Config) (ms : StreamCore) (fetchResult : FetchRes) :
    ParsedFetch :=
  match fetchResult.err with
  | some e => ⟨ms, .error e, []⟩
  | none =>
    match fetchResult.response with
    | none => ⟨ms, .error (.kerr .incompleteResponse), []⟩
    | some response =>
      match response.getBlock ms.topic ms.partition with
      | none => ⟨ms, .error (.kerr .incompleteResponse), []⟩
      | some block =>
        if block.blockErr ≠ KErr.noError then ⟨ms, .error (.kerr block.blockErr), []⟩
        else if block.msgSetMessages.length = 0 then
          if block.partialTrailingMessage then
            if cfg.fetchMax > 0 ∧ ms.fetchSize = cfg.fetchMax then
              ⟨{ms with offset := ms.offset + 1}, .ok [], [.kerr .messageTooLarge]⟩
            else
              ⟨{ms with fetchSize := cappedDouble cfg ms.fetchSize}, .ok [], []⟩
          else ⟨ms, .ok [], []⟩
        else
          let fetchedMessages :=
            (keptEntries ms block).map (mkConsumerMsg ms block.highWaterMarkOffset)
          if fetchedMessages.length = 0 then
            ⟨{ms with fetchSize := cfg.fetchDefault, lag := succLag ms block},
              .error (.kerr .incompleteResponse), []⟩
          else
            ⟨{ms with fetchSize := cfg.fetchDefault, lag := succLag ms block},
              .ok fetchedMessages, []⟩

/-- The data of one `fetchReq` sent by the stream (its reply channel is the
stream's own `fetchResultCh`). -/
structure FetchReqData where
  topic : String
  partition : Int
  offset : Int
  maxBytes : Int
  lag : Int
deriving DecidableEq, Repr

/-- Observable actions of the stream's `run` loop: fetch requests sent to the
assigned broker executor, messages pushed to `messagesCh`, errors passed to
`reportError`, and reassignment requests posted to the mapper. -/
inductive RunOutput
  | sentRequest (r : FetchReqData)
  | emitted (m : ConsumerMessage)
  | reported (e : GoErr)
  | reassignRequested
deriving DecidableEq, Repr

/-- Events of the `run` select loop: an assignment arriving (with the clock
value used if a reassign is triggered), the request-send arm firing, a fetch
result arriving, a delivery to `messagesCh` completing, the reassign retry
timer firing, or `closingCh` closing. -/
inductive RunEvent
  | assign (be : Option Nat) (now : Int)
  | sendRequest
  | fetchResult (r : FetchRes) (now : Int)
  | deliver
  | retryTimer
  | closing
deriving DecidableEq, Repr

/-- State of the `run` loop between select iterations: stream counters,
channel-nulling flags (`nilOr...` channels become `Option`/`Bool` fields) and
the undelivered suffix of the fetched batch (`currMessage` is its head). -/
structure RunState where
  core : StreamCore
  assignedBroker : Option Nat
  brokerReqCh : Option Nat
  awaitingFetch : Bool
  pending : List ConsumerMessage
  delivering : Bool
  timerArmed : Bool
  lastReassignTime : Int
  closed : Bool
deriving DecidableEq, Repr

/-- `msgStream.triggerOrScheduleReassign`: drop the broker assignment,
request immediate reassignment only if more than `Retry.Backoff` elapsed
since the last one, and always (re)arm the retry timer. -/
def triggerOrScheduleReassign (cfg : Config) (now : Int) (s : RunState) :
    RunState × List RunOutput :=
  if now - s.lastReassignTime > cfg.retryBackoff then
    ({s with assignedBroker := none, lastReassignTime := now, timerArmed := true},
      [.reassignRequested])
  else
    ({s with assignedBroker := none, timerArmed := true}, [])

/-- One select iteration of `msgStream.run`. `none` means the event's select
arm is disabled in this state (nil channel) and cannot fire. -/
def runStep (cfg : Config) (s : RunState) (e : RunEvent) :
    Option (RunState × List RunOutput) :=
  if s.closed then none else
  match e with
  | .assign none now => some (triggerOrScheduleReassign cfg now s)
  | .assign (some b) _ =>
    some ({ s with
      assignedBroker := some b
      timerArmed := false
      brokerReqCh :=
        if s.awaitingFetch = false ∧ s.delivering = false then some b
        else s.brokerReqCh }, [])
  | .sendRequest =>
    match s.brokerReqCh with
    | none => none
    | some _ =>
      some ({s with brokerReqCh := none, awaitingFetch := true},
        [.sentRequest ⟨s.core.topic, s.core.partition, s.core.offset,
          s.core.fetchSize, s.core.lag⟩])
  | .fetchResult r now =>
    if s.awaitingFetch = false then none else
    let p := parseFetchResult cfg s.core r
    let s1 := {s with awaitingFetch := false, core := p.state}
    match p.result with
    | .error err =>
      if err = .kerr .offsetOutOfRange then
        some ({s1 with closed := true},
          p.reported.map RunOutput.reported ++ [.reported err])
      else
        some ((triggerOrScheduleReassign cfg now s1).1,
          p.reported.map RunOutput.reported ++ [.reported err] ++
            (triggerOrScheduleReassign cfg now s1).2)
    | .ok msgs =>
      if msgs.length = 0 then
        some ({s1 with brokerReqCh := s1.assignedBroker},
          p.reported.map RunOutput.reported)
      else
        some ({s1 with pending := msgs, delivering := true},
          p.reported.map RunOutput.reported)
  | .deliver =>
    if s.delivering = false then none else
    match s.pending with
    | [] => none
    | m :: rest =>
      if rest.length = 0 then
        some ({ s with
          core := {s.core with offset := m.offset + 1}
          pending := []
          delivering := false
          brokerReqCh := s.assignedBroker }, [.emitted m])
      else
        some ({ s with
          core := {s.core with offset := m.offset + 1}
          pending := rest }, [.emitted m])
  | .retryTimer =>
    if s.timerArmed = false then none else
    some ({s with timerArmed := true}, [.reassignRequested])
  | .closing => some ({s with closed := true}, [])

/-- Fold `runStep` over an event list, accumulating outputs in program
order; disabled events cannot fire and are skipped. -/
def runTrace (cfg : Config) : RunState → List RunEvent → RunState × List RunOutput
  | s, [] => (s, [])
  | s, e :: es =>
    match runStep cfg s e with
    | none => runTrace cfg s es
    | some (s1, outs) => ((runTrace cfg s1 es).1, outs ++ (runTrace cfg s1 es).2)

/-- The messages a run pushed to `messagesCh`, in order. -/
def emittedOf (outs : List RunOutput) : List ConsumerMessage :=
  outs.filterMap (fun o => match o with | .emitted m => some m | _ => none)

/-- State invariant of the `run` loop: the undelivered batch suffix is
strictly offset-sorted and not below the current offset, a batch is pending
only while the delivery arm is enabled, and the request arm is disabled
while a fetch is outstanding or a batch is being delivered. -/
def StreamInv (s : RunState) : Prop :=
  s.pending.Pairwise (fun a b => a.offset < b.offset) ∧
  (∀ m ∈ s.pending, s.core.offset ≤ m.offset) ∧
  (s.delivering = false → s.pending = []) ∧
  (s.awaitingFetch = true → s.delivering = false) ∧
  (s.delivering = true → s.brokerReqCh = none) ∧
  (s.awaitingFetch = true → s.brokerReqCh = none)

instance (s : RunState) : Decidable (StreamInv s) := by
  unfold StreamInv
  infer_instance

/-- The message-set entries a fetch result carries for the given
topic/partition (empty when the response or block is missing). -/
def resEntriesFor (topic : String) (partition : Int) (r : FetchRes) : List MsgEntry :=
  match r.response with
  | none => []
  | some resp =>
    match resp.getBlock topic partition with
    | none => []
    | some b => flatEntries b

/-- Environment assumption on one event: any fetch result delivered to the
stream lists its block's messages in strictly increasing offset order (the
Kafka wire guarantee for a partition's message set). -/
def SortedEvent (topic : String) (partition : Int) (e : RunEvent) : Prop :=
  match e with
  | .fetchResult r _ =>
    (resEntriesFor topic partition r).Pairwise (fun a c => a.offset < c.offset)
  | _ => True

instance (topic : String) (partition : Int) (e : RunEvent) :
    Decidable (SortedEvent topic partition e) := by
  unfold SortedEvent
  cases e <;> infer_instance

/-- Whether a fetch result has the no-messages/partial-trailing-frame shape
for the given topic/partition: no transport error, a block present, no block
error, an empty message set, and the partial-trailing flag set. -/
def emptyPartialShape (topic : String) (partition : Int) (r : FetchRes) : Bool :=
  match r.err with
  | some _ => false
  | none =>
    match r.response with
    | none => false
    | some resp =>
      match resp.getBlock topic partition with
      | none => false
      | some b =>
        decide (b.blockErr = KErr.noError) && b.msgSetMessages.isEmpty &&
          b.partialTrailingMessage

/-- `fetchReq` as seen by the broker executor; `replyId` identifies the
request's reply channel (`ReplyToCh`). -/
structure ExecFetchReq where
  topic : String
  partition : Int
  offset : Int
  maxBytes : Int
  lag : Int
  replyId : Nat
deriving DecidableEq, Repr

/-- State of `runAggregator` between select iterations: the batch buffer and
whether `nilOrBatchRequestCh` is enabled; `returned` marks loop exit. -/
structure AggState where
  batchRequest : List ExecFetchReq
  offering : Bool
  returned : Bool
deriving DecidableEq, Repr

/-- Events of the aggregator's select loop: a request arrives on
`requestsCh`, the sender takes the current batch, or `requestsCh` is
observed closed. -/
inductive AggEvent
  | recv (fr : ExecFetchReq)
  | handoff
  | closedRecv
deriving DecidableEq, Repr

/-- One select iteration of `runAggregator`; `none` when the arm cannot
fire (batch channel disabled, or the loop already returned). On a handoff
the batch is handed to the sender and cleared; on observing the closed
channel the loop returns at once — whatever is in `batchRequest` is
dropped. -/
def aggStep (s : AggState) (e : AggEvent) :
    Option (AggState × Option (List ExecFetchReq)) :=
  if s.returned then none else
  match e with
  | .recv fr => some (⟨s.batchRequest ++ [fr], true, false⟩, none)
  | .handoff =>
    if s.offering then some (⟨[], false, false⟩, some s.batchRequest) else none
  | .closedRecv => some (⟨s.batchRequest, s.offering, true⟩, none)

/-- Fold of the aggregator over an event list, collecting the batches
handed to the sender and the requests accepted from `requestsCh`. -/
def aggRun : AggState → List AggEvent →
    AggState × List (List ExecFetchReq) × List ExecFetchReq
  | s, [] => (s, [], [])
  | s, e :: es =>
    match aggStep s e with
    | none => aggRun s es
    | some (s1, handed) =>
      ((aggRun s1 es).1,
        (match handed with | some b => [b] | none => []) ++ (aggRun s1 es).2.1,
        (match e with | .recv fr => [fr] | _ => []) ++ (aggRun s1 es).2.2)

/-- Sender-loop state: `lastErr` and `lastErrTime` of `runExecutor`. -/
structure ExecState where
  lastErr : Option GoErr
  lastErrTime : Int
deriving DecidableEq, Repr

/-- Environment of one sender iteration: the clock at the loop top, the
clock at the point an error would be recorded, and what `conn.Fetch` would
return if called. -/
structure BatchEnv where
  now : Int
  errNow : Int
  fetchResult : Except GoErr FetchResponse
deriving Repr

/-- The wire-level `sarama.FetchRequest` composed for one batch: `MinBytes`,
`MaxWaitTime`, and one `AddBlock(topic, partition, offset, maxBytes)` per
request. -/
structure WireFetchRequest where
  minBytes : Int
  maxWaitTimeMs : Int
  blocks : List (String × Int × Int × Int)
deriving DecidableEq, Repr

/-- One iteration of `runExecutor` over a batch: within `Retry.Backoff` of
the last connection failure every request in the batch is short-circuited
with the last recorded error and no wire call happens; otherwise one wire
fetch is composed from all requests and the single response (or the error,
which is then recorded) is fanned out to every request's reply channel. -/
def senderStep (cfg : Config) (st : ExecState) (env : BatchEnv)
    (batch : List ExecFetchReq) :
    ExecState × List (Nat × FetchRes) × Option WireFetchRequest :=
  if env.now - st.lastErrTime < cfg.retryBackoff then
    (st, batch.map (fun fr => (fr.replyId, ⟨none, st.lastErr⟩)), none)
  else
    match env.fetchResult with
    | .ok res =>
      (⟨none, st.lastErrTime⟩,
        batch.map (fun fr => (fr.replyId, ⟨some res, none⟩)),
        some ⟨cfg.fetchMin, cfg.maxWaitTimeMs,
          batch.map (fun fr => (fr.topic, fr.partition, fr.offset, fr.maxBytes))⟩)
    | .error e =>
      (⟨some e, env.errNow⟩,
        batch.map (fun fr => (fr.replyId, ⟨none, some e⟩)),
        some ⟨cfg.fetchMin, cfg.maxWaitTimeMs,
          batch.map (fun fr => (fr.topic, fr.partition, fr.offset, fr.maxBytes))⟩)

/-- Fold of the sender over its batches (one environment per batch),
collecting every reply sent and every wire call made. -/
def senderRun (cfg : Config) :
    ExecState → List (List ExecFetchReq × BatchEnv) →
      ExecState × List (Nat × FetchRes) × List WireFetchRequest
  | st, [] => (st, [], [])
  | st, (batch, env) :: rest =>
    ((senderRun cfg (senderStep cfg st env batch).1 rest).1,
      (senderStep cfg st env batch).2.1 ++
        (senderRun cfg (senderStep cfg st env batch).1 rest).2.1,
      (match (senderStep cfg st env batch).2.2 with | some w => [w] | none => []) ++
        (senderRun cfg (senderStep cfg st env batch).1 rest).2.2)

/-- Everything one run of a broker executor does: the aggregator's final
state, the batches it handed over, the requests it accepted, and the
sender's final state, replies and wire calls (one environment consumed per
handed-over batch). -/
structure ExecRunOutcome where
  aggState : AggState
  batches : List (List ExecFetchReq)
  accepted : List ExecFetchReq
  senderState : ExecState
  replies : List (Nat × FetchRes)
  wireCalls : List WireFetchRequest

/-- A whole broker-executor run: the aggregator consumes its events from the
initial state `SpawnExecutor` creates (empty buffer, offering disabled), and
the sender processes the handed-over batches in order. -/
def executorRun (cfg : Config) (st0 : ExecState) (events : List AggEvent)
    (envs : List BatchEnv) : ExecRunOutcome :=
  ⟨(aggRun ⟨[], false, false⟩ events).1,
    (aggRun ⟨[], false, false⟩ events).2.1,
    (aggRun ⟨[], false, false⟩ events).2.2,
    (senderRun cfg st0 ((aggRun ⟨[], false, false⟩ events).2.1.zip envs)).1,
    (senderRun cfg st0 ((aggRun ⟨[], false, false⟩ events).2.1.zip envs)).2.1,
    (senderRun cfg st0 ((aggRun ⟨[], false, false⟩ events).2.1.zip envs)).2.2⟩

/-- A `sarama.ProducerMessage` as the producer uses it: topic, key, value,
and the `Metadata` side field, which carries the sync reply channel id (or
nothing for fire-and-forget submissions). -/
structure ProducerMessage where
  topic : String
  key : List Nat
  value : List Nat
  metadata : Option Nat
deriving DecidableEq, Repr

/-- A `ProduceResult`: the original submission plus the error (nil on
success). -/
structure ProduceRes where
  msg : ProducerMessage
  err : Option GoErr
deriving DecidableEq, Repr

/-- Observable actions of the producer's dispatcher: a message forwarded to
the sink's input channel, a reply sent on a sync submission's reply
channel, a result flushed to the dead-letter channel, and the sink's
`AsyncClose` invocation. -/
inductive ProdOutput
  | toSink (m : ProducerMessage)
  | reply (chId : Nat) (err : Option GoErr)
  | deadLetter (m : ProducerMessage) (err : GoErr)
  | asyncClosed
deriving DecidableEq, Repr

/-- `KafkaProducer.handleProduceResult`: reply on the metadata channel when
present (with the result's error), return on success, otherwise flush the
failed result to `deadMessageCh` when one is configured. -/
def handleProduceResult (hasDeadCh : Bool) (r : ProduceRes) : List ProdOutput :=
  (match r.msg.metadata with
   | some ch => [ProdOutput.reply ch r.err]
   | none => []) ++
  (match r.err with
   | none => []
   | some e => if hasDeadCh then [ProdOutput.deadLetter r.msg e] else [])

/-- Control location of the `dispatcher` goroutine: the two strokes of the
normal loop, the graceful-drain loop, the force-close loop after
`AsyncClose`, and termination. -/
inductive DispPhase
  | mainRecv
  | mainForward
  | drain
  | forceClose
  | finished
deriving DecidableEq, Repr

/-- State of the dispatcher: its phase, `pendingMsgCount`, and the message
held between the two strokes (`prodMsg`). -/
structure DispState where
  phase : DispPhase
  pendingMsgCount : Int
  held : Option ProducerMessage
deriving DecidableEq, Repr

/-- Events of the dispatcher: a submission arrives on `dispatcherCh`, that
channel closes, the sink accepts the held message, a `ProduceResult`
arrives on `resultCh`, the shutdown timeout fires, or `resultCh` closes. -/
inductive DispEvent
  | accept (m : ProducerMessage)
  | dispatcherClosed
  | forward
  | result (r : ProduceRes)
  | timeout
  | resultClosed
deriving DecidableEq, Repr

/-- Entry into graceful shutdown: the drain loop runs only while
`pendingMsgCount > 0`; otherwise the sink is async-closed at once. -/
def enterShutdown (s : DispState) : DispState × List ProdOutput :=
  if s.pendingMsgCount > 0 then ({s with phase := DispPhase.drain}, [])
  else ({s with phase := DispPhase.forceClose}, [ProdOutput.asyncClosed])

/-- One select iteration of the `dispatcher` goroutine; `none` when the
event's channel is disabled in the current phase. Note that the force-close
loop handles results WITHOUT decrementing `pendingMsgCount`. -/
def dispStep (hasDeadCh : Bool) (s : DispState) (e : DispEvent) :
    Option (DispState × List ProdOutput) :=
  match s.phase, e with
  | DispPhase.mainRecv, DispEvent.accept m =>
    some ({ s with
      phase := DispPhase.mainForward
      pendingMsgCount := s.pendingMsgCount + 1
      held := some m }, [])
  | DispPhase.mainRecv, DispEvent.dispatcherClosed => some (enterShutdown s)
  | DispPhase.mainForward, DispEvent.forward =>
    match s.held with
    | some m =>
      some ({ s with
        phase := DispPhase.mainRecv
        held := none }, [ProdOutput.toSink m])
    | none => none
  | DispPhase.mainRecv, DispEvent.result r =>
    some ({s with pendingMsgCount := s.pendingMsgCount - 1},
      handleProduceResult hasDeadCh r)
  | DispPhase.mainForward, DispEvent.result r =>
    some ({s with pendingMsgCount := s.pendingMsgCount - 1},
      handleProduceResult hasDeadCh r)
  | DispPhase.drain, DispEvent.result r =>
    if s.pendingMsgCount - 1 > 0 then
      some ({s with pendingMsgCount := s.pendingMsgCount - 1},
        handleProduceResult hasDeadCh r)
    else
      some (⟨DispPhase.forceClose, s.pendingMsgCount - 1, s.held⟩,
        handleProduceResult hasDeadCh r ++ [ProdOutput.asyncClosed])
  | DispPhase.drain, DispEvent.timeout =>
    some ({s with phase := DispPhase.forceClose}, [ProdOutput.asyncClosed])
  | DispPhase.forceClose, DispEvent.result r =>
    some (s, handleProduceResult hasDeadCh r)
  | DispPhase.forceClose, DispEvent.resultClosed =>
    some ({s with phase := DispPhase.finished}, [])
  | _, _ => none

/-- Whether results handled in this phase decrement `pendingMsgCount` (the
main loop and the drain loop do; the force-close loop does not). -/
def prePhase (p : DispPhase) : Bool :=
  match p with
  | DispPhase.mainRecv => true
  | DispPhase.mainForward => true
  | DispPhase.drain => true
  | _ => false

/-- The submission an event contributes to the accepted count. -/
def acceptedPrefix (e : DispEvent) : List ProducerMessage :=
  match e with
  | DispEvent.accept m => [m]
  | _ => []

/-- The result an event contributes to the decrementing-handled count. -/
def handledPrePrefix (p : DispPhase) (e : DispEvent) : List ProduceRes :=
  match e with
  | DispEvent.result r => if prePhase p then [r] else []
  | _ => []

/-- The result an event contributes to the force-close-handled count. -/
def handledPostPrefix (p : DispPhase) (e : DispEvent) : List ProduceRes :=
  match e with
  | DispEvent.result r => if prePhase p then [] else [r]
  | _ => []

/-- Bookkeeping of a dispatcher run: the submissions accepted, and the
results handled before and after entering the force-close loop. -/
structure DispStats where
  accepted : List ProducerMessage
  handledPre : List ProduceRes
  handledPost : List ProduceRes
deriving DecidableEq, Repr

/-- Fold of the dispatcher over an event list, collecting outputs and
bookkeeping; disabled events cannot fire and are skipped. -/
def dispRun (hasDeadCh : Bool) : DispState → List DispEvent →
    DispState × List ProdOutput × DispStats
  | s, [] => (s, [], ⟨[], [], []⟩)
  | s, e :: es =>
    match dispStep hasDeadCh s e with
    | none => dispRun hasDeadCh s es
    | some (s1, outs) =>
      ((dispRun hasDeadCh s1 es).1,
        outs ++ (dispRun hasDeadCh s1 es).2.1,
        ⟨acceptedPrefix e ++ (dispRun hasDeadCh s1 es).2.2.accepted,
          handledPrePrefix s.phase e ++ (dispRun hasDeadCh s1 es).2.2.handledPre,
          handledPostPrefix s.phase e ++ (dispRun hasDeadCh s1 es).2.2.handledPost⟩)

/-- The sync replies a dispatcher run sent, in order. -/
def repliesOf (outs : List ProdOutput) : List (Nat × Option GoErr) :=
  outs.filterMap (fun o => match o with
    | ProdOutput.reply c err => some (c, err)
    | _ => none)

/-- The results a dispatcher run flushed to the dead-letter channel. -/
def deadLettersOf (outs : List ProdOutput) : List (ProducerMessage × GoErr) :=
  outs.filterMap (fun o => match o with
    | ProdOutput.deadLetter m e => some (m, e)
    | _ => none)

/-- Claim C1: for every (successful) spawn of a message stream, the returned
`actualOffset` is resolved from the cluster's current partition boundaries:
the Oldest sentinel or a literal strictly below the oldest boundary yields
the oldest offset, the Newest sentinel or a literal strictly above the
newest boundary yields the newest offset, and a literal within
`[oldest, newest]` is returned unchanged; the spawned stream first requests
exactly that offset. -/
theorem spec_C1_offset_resolution (cfg : Config) (c : ClusterOffsets)
    (st : FactoryState) (topic : String) (partition : Int) (offset newest oldest : Int)
    (hn : c.newestRes = .ok newest) (ho : c.oldestRes = .ok oldest)
    (h0 : 0 ≤ oldest) (hon : oldest ≤ newest)
    (hfree : InstanceID.mk topic partition ∉ st.children) :
    ((offset = offsetOldest ∨ (0 ≤ offset ∧ offset < oldest)) →
      (spawnMessageStream cfg c st topic partition offset).actualOffset = oldest) ∧
    ((offset = offsetNewest ∨ offset > newest) →
      (spawnMessageStream cfg c st topic partition offset).actualOffset = newest) ∧
    ((oldest ≤ offset ∧ offset ≤ newest) →
      (spawnMessageStream cfg c st topic partition offset).actualOffset = offset) ∧
    ((spawnMessageStream cfg c st topic partition offset).stream.map StreamCore.offset =
      some (spawnMessageStream cfg c st topic partition offset).actualOffset) := by
  have hchoose : chooseStartingOffset c offset =
      (if offset = offsetNewest ∨ offset > newest then .ok newest
       else if offset = offsetOldest ∨ offset < oldest then .ok oldest
       else .ok offset) := by
    simp [chooseStartingOffset, hn, ho]
  refine ⟨?_, ?_, ?_, ?_⟩
  · intro h
    have hne : ¬ (offset = offsetNewest ∨ offset > newest) := by
      rcases h with h | ⟨h1, h2⟩
      · rw [h]
        simp only [offsetOldest, offsetNewest]
        omega
      · simp only [offsetNewest]
        omega
    have hol : offset = offsetOldest ∨ offset < oldest := by
      rcases h with h | ⟨h1, h2⟩
      · exact Or.inl h
      · exact Or.inr h2
    have hc : chooseStartingOffset c offset = .ok oldest := by
      rw [hchoose, if_neg hne, if_pos hol]
    simp [spawnMessageStream, hc, hfree]
  · intro h
    have hc : chooseStartingOffset c offset = .ok newest := by
      rw [hchoose, if_pos h]
    simp [spawnMessageStream, hc, hfree]
  · rintro ⟨h1, h2⟩
    have hne : ¬ (offset = offsetNewest ∨ offset > newest) := by
      simp only [offsetNewest]
      omega
    have hno : ¬ (offset = offsetOldest ∨ offset < oldest) := by
      simp only [offsetOldest]
      omega
    have hc : chooseStartingOffset c offset = .ok offset := by
      rw [hchoose, if_neg hne, if_neg hno]
    simp [spawnMessageStream, hc, hfree]
  · by_cases h1 : offset = offsetNewest ∨ offset > newest
    · have hc : chooseStartingOffset c offset = .ok newest := by
        rw [hchoose, if_pos h1]
      simp [spawnMessageStream, hc, hfree]
    · by_cases h2 : offset = offsetOldest ∨ offset < oldest
      · have hc : chooseStartingOffset c offset = .ok oldest := by
          rw [hchoose, if_neg h1, if_pos h2]
        simp [spawnMessageStream, hc, hfree]
      · have hc : chooseStartingOffset c offset = .ok offset := by
          rw [hchoose, if_neg h1, if_neg h2]
        simp [spawnMessageStream, hc, hfree]

/-- Witness for C1 at the spec's scenario S2: oldest=100, newest=200,
requesting literal 50 returns 100. -/
theorem spec_C1_offset_resolution_witness :
    ((⟨.ok 200, .ok 100⟩ : ClusterOffsets).newestRes = .ok 200 ∧
     (⟨.ok 200, .ok 100⟩ : ClusterOffsets).oldestRes = .ok 100 ∧
     (0 : Int) ≤ 100 ∧ (100 : Int) ≤ 200 ∧
     InstanceID.mk ("t") 0 ∉ (⟨[]⟩ : FactoryState).children) ∧
    (spawnMessageStream ⟨32768, 0, 1, 250, 250000000, 256, true⟩ ⟨.ok 200, .ok 100⟩
      ⟨[]⟩ ("t") 0 50).actualOffset = 100 :=
  ⟨⟨rfl, rfl, by decide, by decide, by decide⟩,
    (spec_C1_offset_resolution ⟨32768, 0, 1, 250, 250000000, 256, true⟩
      ⟨.ok 200, .ok 100⟩ ⟨[]⟩ ("t") 0 50 200 100 rfl rfl
      (by decide) (by decide) (by decide)).1 (Or.inr ⟨by decide, by decide⟩)⟩

/-- Claim C8: a factory keeps at most one live stream per `(topic,
partition)` (spawning preserves distinctness of the `children` keys), and a
second spawn for an already-registered partition returns the
AlreadyConsuming configuration error with no side effect: the children map
is unchanged, no stream is created and nothing is published to the mapper. -/
theorem spec_C8_unique_stream (cfg : Config) (c : ClusterOffsets)
    (st : FactoryState) (topic : String) (partition : Int) (offset : Int)
    (hnodup : st.children.Nodup) :
    (spawnMessageStream cfg c st topic partition offset).children.Nodup ∧
    (InstanceID.mk topic partition ∈ st.children →
      (spawnMessageStream cfg c st topic partition offset).spawnErr =
          some (.configurationError alreadyConsumingMsg) ∨
        (∃ e, chooseStartingOffset c offset = .error e ∧
          (spawnMessageStream cfg c st topic partition offset).spawnErr = some e)) ∧
    (InstanceID.mk topic partition ∈ st.children →
      (spawnMessageStream cfg c st topic partition offset).children = st.children ∧
      (spawnMessageStream cfg c st topic partition offset).stream = none ∧
      (spawnMessageStream cfg c st topic partition offset).publishedToMapper = []) := by
  refine ⟨?_, ?_, ?_⟩
  · match hc : chooseStartingOffset c offset with
    | .error e => simp [spawnMessageStream, hc, hnodup]
    | .ok concrete =>
      by_cases hmem : InstanceID.mk topic partition ∈ st.children
      · simp [spawnMessageStream, hc, hmem, hnodup]
      · simp only [spawnMessageStream, hc, hmem, if_neg hmem]
        exact List.Nodup.append hnodup (List.nodup_singleton _)
          (by simpa using fun h => hmem h)
  · intro hmem
    match hc : chooseStartingOffset c offset with
    | .error e => exact Or.inr ⟨e, rfl, by simp [spawnMessageStream, hc]⟩
    | .ok concrete => exact Or.inl (by simp [spawnMessageStream, hc, hmem])
  · intro hmem
    match hc : chooseStartingOffset c offset with
    | .error e => simp [spawnMessageStream, hc]
    | .ok concrete => simp [spawnMessageStream, hc, hmem]

/-- Witness for C8: a duplicate spawn for `("t", 0)` fails with the
AlreadyConsuming error and leaves the registry untouched. -/
theorem spec_C8_unique_stream_witness :
    ([InstanceID.mk ("t") 0] : List InstanceID).Nodup ∧
    (InstanceID.mk ("t") 0 ∈ ([InstanceID.mk ("t") 0] : List InstanceID) →
      (spawnMessageStream ⟨32768, 0, 1, 250, 250000000, 256, true⟩ ⟨.ok 200, .ok 100⟩
        ⟨[InstanceID.mk ("t") 0]⟩ ("t") 0 50).children = [InstanceID.mk ("t") 0] ∧
      (spawnMessageStream ⟨32768, 0, 1, 250, 250000000, 256, true⟩ ⟨.ok 200, .ok 100⟩
        ⟨[InstanceID.mk ("t") 0]⟩ ("t") 0 50).stream = none ∧
      (spawnMessageStream ⟨32768, 0, 1, 250, 250000000, 256, true⟩ ⟨.ok 200, .ok 100⟩
        ⟨[InstanceID.mk ("t") 0]⟩ ("t") 0 50).publishedToMapper = []) :=
  ⟨by decide,
    (spec_C8_unique_stream ⟨32768, 0, 1, 250, 250000000, 256, true⟩ ⟨.ok 200, .ok 100⟩
      ⟨[InstanceID.mk ("t") 0]⟩ ("t") 0 50 (by decide)).2.2⟩

/-- Claim C10: on every error return of `SpawnMessageStream` (boundary-lookup
failure or duplicate partition) the `actualOffset` returned alongside the
error is the Newest sentinel constant, never 0, and never echoes the
requested offset (unless the request was the Newest sentinel itself). -/
theorem spec_C10_error_offset (cfg : Config) (c : ClusterOffsets)
    (st : FactoryState) (topic : String) (partition : Int) (offset : Int)
    (herr : (spawnMessageStream cfg c st topic partition offset).spawnErr ≠ none) :
    (spawnMessageStream cfg c st topic partition offset).actualOffset = offsetNewest ∧
    (spawnMessageStream cfg c st topic partition offset).actualOffset ≠ 0 ∧
    (offset ≠ offsetNewest →
      (spawnMessageStream cfg c st topic partition offset).actualOffset ≠ offset) := by
  have hbase : (spawnMessageStream cfg c st topic partition offset).actualOffset =
      offsetNewest := by
    match hc : chooseStartingOffset c offset with
    | .error e => simp [spawnMessageStream, hc]
    | .ok concrete =>
      by_cases hmem : InstanceID.mk topic partition ∈ st.children
      · simp [spawnMessageStream, hc, hmem]
      · exfalso
        apply herr
        simp [spawnMessageStream, hc, hmem]
  refine ⟨hbase, ?_, ?_⟩
  · rw [hbase]; decide
  · intro hne
    rw [hbase]
    exact fun h => hne h.symm

/-- Witness for C10: a duplicate spawn requesting literal 50 errors out and
returns the Newest sentinel (−1), not 0 and not 50. -/
theorem spec_C10_error_offset_witness :
    (spawnMessageStream ⟨32768, 0, 1, 250, 250000000, 256, true⟩ ⟨.ok 200, .ok 100⟩
      ⟨[InstanceID.mk ("t") 0]⟩ ("t") 0 50).spawnErr ≠ none ∧
    ((spawnMessageStream ⟨32768, 0, 1, 250, 250000000, 256, true⟩ ⟨.ok 200, .ok 100⟩
      ⟨[InstanceID.mk ("t") 0]⟩ ("t") 0 50).actualOffset = offsetNewest ∧
     (spawnMessageStream ⟨32768, 0, 1, 250, 250000000, 256, true⟩ ⟨.ok 200, .ok 100⟩
      ⟨[InstanceID.mk ("t") 0]⟩ ("t") 0 50).actualOffset ≠ 0 ∧
     ((50 : Int) ≠ offsetNewest →
      (spawnMessageStream ⟨32768, 0, 1, 250, 250000000, 256, true⟩ ⟨.ok 200, .ok 100⟩
        ⟨[InstanceID.mk ("t") 0]⟩ ("t") 0 50).actualOffset ≠ 50)) :=
  ⟨by decide,
    spec_C10_error_offset ⟨32768, 0, 1, 250, 250000000, 256, true⟩ ⟨.ok 200, .ok 100⟩
      ⟨[InstanceID.mk ("t") 0]⟩ ("t") 0 50 (by decide)⟩

/-- `wrap32` is the identity on values already in the `int32` range. -/
theorem wrap32_eq_self {n : Int} (h1 : -2147483648 ≤ n) (h2 : n < 2147483648) :
    wrap32 n = n := by
  unfold wrap32
  omega

/-- When the configuration is sane (`0 < Default ≤ Max ≤ 2^30 - 1`) and the
current fetch size is within bounds, the code's double-and-cap equals
`min (2 × fetchSize) Max`. -/
theorem cappedDouble_eq_min (cfg : Config) (fs : Int)
    (hd : 0 < cfg.fetchDefault) (hdm : cfg.fetchDefault ≤ cfg.fetchMax)
    (hm : cfg.fetchMax ≤ 1073741823)
    (hlo : cfg.fetchDefault ≤ fs) (hhi : fs ≤ cfg.fetchMax) :
    cappedDouble cfg fs = min (2 * fs) cfg.fetchMax := by
  unfold cappedDouble
  rw [wrap32_eq_self (by omega) (by omega)]
  rcases le_or_lt (2 * fs) cfg.fetchMax with h | h
  · rw [if_neg (by omega), min_eq_left h]
  · rw [if_pos ⟨by omega, h⟩, min_eq_right (by omega)]

/-- On a no-messages/partial-trailing fetch result, `parseFetchResult` either
reports `ErrMessageTooLarge` and skips one offset (at the max) or
doubles-and-caps the fetch size. -/
theorem parse_emptyPartial (cfg : Config) (ms : StreamCore) (r : FetchRes)
    (hshape : emptyPartialShape ms.topic ms.partition r = true) :
    parseFetchResult cfg ms r =
      if cfg.fetchMax > 0 ∧ ms.fetchSize = cfg.fetchMax then
        ⟨{ms with offset := ms.offset + 1}, .ok [], [.kerr .messageTooLarge]⟩
      else ⟨{ms with fetchSize := cappedDouble cfg ms.fetchSize}, .ok [], []⟩ := by
  rcases r with ⟨resp?, err?⟩
  cases err? with
  | some e => simp [emptyPartialShape] at hshape
  | none =>
    cases resp? with
    | none => simp [emptyPartialShape] at hshape
    | some resp =>
      cases hb : resp.getBlock ms.topic ms.partition with
      | none => simp [emptyPartialShape, hb] at hshape
      | some b =>
        simp only [emptyPartialShape, hb, Bool.and_eq_true, decide_eq_true_eq] at hshape
        obtain ⟨⟨h1, h2⟩, h3⟩ := hshape
        have h2' : b.msgSetMessages = [] := by
          cases hmm : b.msgSetMessages with
          | nil => rfl
          | cons x xs => rw [hmm] at h2; simp at h2
        simp [parseFetchResult, hb, h1, h2', h3]

/-- `parseFetchResult` never changes the stream identity and never moves the
offset backwards (it only ever bumps it by one on the too-large skip). -/
theorem parse_state_basic (cfg : Config) (ms : StreamCore) (r : FetchRes) :
    (parseFetchResult cfg ms r).state.topic = ms.topic ∧
    (parseFetchResult cfg ms r).state.partition = ms.partition ∧
    ms.offset ≤ (parseFetchResult cfg ms r).state.offset := by
  unfold parseFetchResult
  repeat' split
  all_goals simp
  all_goals (split <;> simp)

/-- The stream's `fetchSize` after a parse is unchanged, reset to Default,
or — exactly on the no-messages/partial-trailing shape below the max —
doubled-and-capped. -/
theorem parse_fetchSize_cases (cfg : Config) (ms : StreamCore) (r : FetchRes) :
    (parseFetchResult cfg ms r).state.fetchSize = ms.fetchSize ∨
    (parseFetchResult cfg ms r).state.fetchSize = cfg.fetchDefault ∨
    (emptyPartialShape ms.topic ms.partition r = true ∧
      ¬ (cfg.fetchMax > 0 ∧ ms.fetchSize = cfg.fetchMax) ∧
      (parseFetchResult cfg ms r).state.fetchSize = cappedDouble cfg ms.fetchSize) := by
  rcases r with ⟨resp?, err?⟩
  cases err? with
  | some e => left; simp [parseFetchResult]
  | none =>
    cases resp? with
    | none => left; simp [parseFetchResult]
    | some resp =>
      cases hb : resp.getBlock ms.topic ms.partition with
      | none => left; simp [parseFetchResult, hb]
      | some b =>
        by_cases hbe : b.blockErr = KErr.noError
        · cases hms : b.msgSetMessages with
          | nil =>
            cases hpt : b.partialTrailingMessage with
            | false => left; simp [parseFetchResult, hb, hbe, hms, hpt]
            | true =>
              by_cases hatm : cfg.fetchMax > 0 ∧ ms.fetchSize = cfg.fetchMax
              · left; simp [parseFetchResult, hb, hbe, hms, hpt, hatm]
              · right; right
                refine ⟨?_, hatm, ?_⟩
                · simp [emptyPartialShape, hb, hbe, hms, hpt]
                · simp [parseFetchResult, hb, hbe, hms, hpt, hatm]
          | cons x xs =>
            right; left
            simp only [parseFetchResult, hb, hbe, hms]
            rw [if_neg (by simp), if_neg (by simp)]
            split <;> simp
        · left; simp [parseFetchResult, hb, hbe]

/-- Characterization of a successful parse: with a well-formed block whose
kept entries are nonempty, the parse resets `fetchSize`, sets `lag` from the
last kept entry and returns the kept entries as messages. -/
theorem parse_success (cfg : Config) (ms : StreamCore) (r : FetchRes)
    (resp : FetchResponse) (b : FetchResponseBlock)
    (hr : r.err = none) (hresp : r.response = some resp)
    (hb : resp.getBlock ms.topic ms.partition = some b)
    (hbe : b.blockErr = KErr.noError) (hms : b.msgSetMessages ≠ [])
    (hk : keptEntries ms b ≠ []) :
    parseFetchResult cfg ms r =
      ⟨{ms with fetchSize := cfg.fetchDefault, lag := succLag ms b},
        .ok ((keptEntries ms b).map (mkConsumerMsg ms b.highWaterMarkOffset)), []⟩ := by
  rcases r with ⟨resp?, err?⟩
  simp only at hr hresp
  subst hr
  subst hresp
  cases hms2 : b.msgSetMessages with
  | nil => exact absurd hms2 hms
  | cons x xs =>
    simp [parseFetchResult, hb, hbe, hms2, hk]

/-- When a parse returns a nonempty message list, the parse came from the
success branch: the offset is untouched, `fetchSize` is reset to Default,
every returned message is at or above the stream's offset, and — when the
block's entries arrive in strictly increasing offset order — so are the
returned messages. -/
theorem parse_ok_nonempty (cfg : Config) (ms : StreamCore) (r : FetchRes)
    (msgs : List ConsumerMessage)
    (h : (parseFetchResult cfg ms r).result = .ok msgs) (hne : msgs ≠ []) :
    (parseFetchResult cfg ms r).state.offset = ms.offset ∧
    (parseFetchResult cfg ms r).state.fetchSize = cfg.fetchDefault ∧
    (∀ m ∈ msgs, ms.offset ≤ m.offset) ∧
    ((resEntriesFor ms.topic ms.partition r).Pairwise (fun a c => a.offset < c.offset) →
      msgs.Pairwise (fun a b => a.offset < b.offset)) := by
  rcases r with ⟨resp?, err?⟩
  cases err? with
  | some e => simp [parseFetchResult] at h
  | none =>
    cases resp? with
    | none => simp [parseFetchResult] at h
    | some resp =>
      cases hb : resp.getBlock ms.topic ms.partition with
      | none => simp [parseFetchResult, hb] at h
      | some b =>
        by_cases hbe : b.blockErr = KErr.noError
        · cases hms : b.msgSetMessages with
          | nil =>
            cases hpt : b.partialTrailingMessage with
            | false =>
              simp [parseFetchResult, hb, hbe, hms, hpt] at h
              exact absurd h hne
            | true =>
              by_cases hatm : cfg.fetchMax > 0 ∧ ms.fetchSize = cfg.fetchMax
              · simp [parseFetchResult, hb, hbe, hms, hpt, hatm] at h
                exact absurd h hne
              · simp [parseFetchResult, hb, hbe, hms, hpt, hatm] at h
                exact absurd h hne
          | cons x xs =>
            by_cases hk : keptEntries ms b = []
            · simp [parseFetchResult, hb, hbe, hms, hk] at h
            · have hpeq := parse_success cfg ms ⟨some resp, none⟩ resp b rfl rfl hb hbe
                (by rw [hms]; simp) hk
              rw [hpeq] at h ⊢
              simp only [Except.ok.injEq] at h
              subst h
              refine ⟨rfl, rfl, ?_, ?_⟩
              · intro m hm
                obtain ⟨en, hen, hfe⟩ := List.mem_map.mp hm
                have hp : ¬ (en.offset < ms.offset) := by
                  have := List.of_mem_filter hen
                  simpa using this
                rw [← hfe]
                simp only [mkConsumerMsg]
                omega
              · intro hsort
                have hflat : resEntriesFor ms.topic ms.partition
                    (⟨some resp, none⟩ : FetchRes) = flatEntries b := by
                  simp [resEntriesFor, hb]
                rw [hflat] at hsort
                have hkeptsort : (keptEntries ms b).Pairwise
                    (fun a c => a.offset < c.offset) :=
                  List.Pairwise.sublist (List.filter_sublist _) hsort
                rw [List.pairwise_map]
                exact hkeptsort.imp (fun hlt => hlt)
        · simp [parseFetchResult, hbe, hb] at h

/-- Claim C4 counterexample: with `Fetch.Default = 2^30` and `Fetch.Max = 0`
(unbounded), one no-messages/partial-trailing fetch response makes the code
execute `fetchSize *= 2`, which overflows Go's `int32` to `-2^31`: the
resulting fetch size is below Default (so the claimed `[Default, Max]`
invariant fails) and is not the claimed `2 × fetchSize`. -/
theorem spec_C4_cex :
    (parseFetchResult ⟨1073741824, 0, 1, 250, 250000000, 256, true⟩
        ⟨("t"), 0, 100, 1073741824, 0⟩
        ⟨some ⟨[(⟨("t"), 0⟩, ⟨KErr.noError, [], true, 100⟩)]⟩, none⟩).state.fetchSize =
      -2147483648 ∧
    ¬ (1073741824 ≤ (parseFetchResult ⟨1073741824, 0, 1, 250, 250000000, 256, true⟩
        ⟨("t"), 0, 100, 1073741824, 0⟩
        ⟨some ⟨[(⟨("t"), 0⟩, ⟨KErr.noError, [], true, 100⟩)]⟩, none⟩).state.fetchSize) ∧
    (parseFetchResult ⟨1073741824, 0, 1, 250, 250000000, 256, true⟩
        ⟨("t"), 0, 100, 1073741824, 0⟩
        ⟨some ⟨[(⟨("t"), 0⟩, ⟨KErr.noError, [], true, 100⟩)]⟩, none⟩).state.fetchSize ≠
      2 * 1073741824 := by decide

/-- Claim C4 (amended): provided the configuration keeps the doubling inside
`int32` range (`0 < Default ≤ Max ≤ 2^30 - 1`) and the current fetch size is
within `[Default, Max]`, a parse keeps the fetch size in `[Default, Max]`;
it becomes `min (2 × fetchSize) Max` exactly on the
no-messages/partial-trailing shape below the max, is reset to Default on
every successful message batch, and is otherwise unchanged or reset; the
next fetch request sent by the run loop carries the stream's current fetch
size as its `MaxBytes`. -/
theorem spec_C4_fetchSize (cfg : Config) (ms : StreamCore) (r : FetchRes)
    (hd : 0 < cfg.fetchDefault) (hdm : cfg.fetchDefault ≤ cfg.fetchMax)
    (hm : cfg.fetchMax ≤ 1073741823)
    (hlo : cfg.fetchDefault ≤ ms.fetchSize) (hhi : ms.fetchSize ≤ cfg.fetchMax) :
    (cfg.fetchDefault ≤ (parseFetchResult cfg ms r).state.fetchSize ∧
      (parseFetchResult cfg ms r).state.fetchSize ≤ cfg.fetchMax) ∧
    (∀ msgs, (parseFetchResult cfg ms r).result = .ok msgs → msgs ≠ [] →
      (parseFetchResult cfg ms r).state.fetchSize = cfg.fetchDefault) ∧
    (emptyPartialShape ms.topic ms.partition r = true → ms.fetchSize < cfg.fetchMax →
      (parseFetchResult cfg ms r).state.fetchSize = min (2 * ms.fetchSize) cfg.fetchMax) ∧
    ((parseFetchResult cfg ms r).state.fetchSize = ms.fetchSize ∨
      (parseFetchResult cfg ms r).state.fetchSize = cfg.fetchDefault ∨
      (emptyPartialShape ms.topic ms.partition r = true ∧ ms.fetchSize < cfg.fetchMax ∧
        (parseFetchResult cfg ms r).state.fetchSize = min (2 * ms.fetchSize) cfg.fetchMax)) ∧
    (∀ (s : RunState) (b : Nat), s.closed = false → s.brokerReqCh = some b →
      runStep cfg s .sendRequest =
        some ({ s with brokerReqCh := none, awaitingFetch := true },
          [.sentRequest ⟨s.core.topic, s.core.partition, s.core.offset,
            s.core.fetchSize, s.core.lag⟩])) := by
  have hcap : cappedDouble cfg ms.fetchSize = min (2 * ms.fetchSize) cfg.fetchMax :=
    cappedDouble_eq_min cfg ms.fetchSize hd hdm hm hlo hhi
  have hcases := parse_fetchSize_cases cfg ms r
  refine ⟨?_, ?_, ?_, ?_, ?_⟩
  · rcases hcases with hc | hc | ⟨hsh, hnem, hc⟩
    · rw [hc]; exact ⟨hlo, hhi⟩
    · rw [hc]; exact ⟨le_refl _, hdm⟩
    · rw [hc, hcap]
      constructor
      · omega
      · omega
  · intro msgs hok hne
    exact (parse_ok_nonempty cfg ms r msgs hok hne).2.1
  · intro hsh hlt
    have hne : ¬ (cfg.fetchMax > 0 ∧ ms.fetchSize = cfg.fetchMax) := by omega
    have := parse_emptyPartial cfg ms r hsh
    rw [if_neg hne] at this
    rw [this, ← hcap]
  · rcases hcases with hc | hc | ⟨hsh, hnem, hc⟩
    · exact Or.inl hc
    · exact Or.inr (Or.inl hc)
    · refine Or.inr (Or.inr ⟨hsh, by omega, by rw [hc, hcap]⟩)
  · intro s b hclosed hbr
    simp [runStep, hclosed, hbr]

/-- Witness for the amended C4: from `fetchSize = 1024 = Default`,
`Max = 4096`, a partial-trailing empty response doubles to
`min 2048 4096 = 2048`. -/
theorem spec_C4_fetchSize_witness :
    ((0 : Int) < 1024 ∧ (1024 : Int) ≤ 4096 ∧ (4096 : Int) ≤ 1073741823 ∧
      (1024 : Int) ≤ 1024 ∧ (1024 : Int) ≤ 4096) ∧
    (emptyPartialShape ("t") 0
        ⟨some ⟨[(⟨("t"), 0⟩, ⟨KErr.noError, [], true, 100⟩)]⟩, none⟩ = true →
      (1024 : Int) < 4096 →
      (parseFetchResult ⟨1024, 4096, 1, 250, 250000000, 256, true⟩
          ⟨("t"), 0, 100, 1024, 0⟩
          ⟨some ⟨[(⟨("t"), 0⟩, ⟨KErr.noError, [], true, 100⟩)]⟩, none⟩).state.fetchSize =
        min (2 * 1024) 4096) :=
  ⟨⟨by decide, by decide, by decide, by decide, by decide⟩,
    (spec_C4_fetchSize ⟨1024, 4096, 1, 250, 250000000, 256, true⟩
      ⟨("t"), 0, 100, 1024, 0⟩
      ⟨some ⟨[(⟨("t"), 0⟩, ⟨KErr.noError, [], true, 100⟩)]⟩, none⟩
      (by decide) (by decide) (by decide) (by decide) (by decide)).2.2.1⟩

/-- Claim C6: when a fetch result has no messages, a partial trailing frame,
and `fetchSize` equals the configured Max (`Max > 0`), the run loop's
fetch-result step reports exactly one MessageTooLarge error, advances the
offset by exactly 1, leaves `fetchSize` unchanged, emits no message, and
re-enables the broker-request arm (straight back to requesting). -/
theorem spec_C6_skip_too_large (cfg : Config) (s : RunState) (r : FetchRes) (now : Int)
    (hclosed : s.closed = false) (hawait : s.awaitingFetch = true)
    (hshape : emptyPartialShape s.core.topic s.core.partition r = true)
    (hmax : cfg.fetchMax > 0) (hfs : s.core.fetchSize = cfg.fetchMax) :
    runStep cfg s (.fetchResult r now) =
      some ({ s with
        awaitingFetch := false
        core := {s.core with offset := s.core.offset + 1}
        brokerReqCh := s.assignedBroker },
        [RunOutput.reported (.kerr .messageTooLarge)]) ∧
    ({s.core with offset := s.core.offset + 1}).offset = s.core.offset + 1 ∧
    ({s.core with offset := s.core.offset + 1}).fetchSize = s.core.fetchSize ∧
    emittedOf [RunOutput.reported (.kerr .messageTooLarge)] = [] := by
  have hp := parse_emptyPartial cfg s.core r hshape
  rw [if_pos ⟨hmax, hfs⟩] at hp
  refine ⟨?_, rfl, rfl, by simp [emittedOf]⟩
  simp only [runStep, hclosed, hawait, hp]
  simp [emittedOf]

/-- Witness for C6 at a concrete stream state (`offset = 100`,
`fetchSize = Max = 65536`) and a concrete partial-trailing empty response. -/
theorem spec_C6_skip_too_large_witness :
    ((⟨⟨("t"), 0, 100, 65536, 5⟩, some 1, none, true, [], false, false, 0, false⟩ :
        RunState).closed = false ∧
      (⟨⟨("t"), 0, 100, 65536, 5⟩, some 1, none, true, [], false, false, 0, false⟩ :
        RunState).awaitingFetch = true ∧
      emptyPartialShape ("t") 0
        ⟨some ⟨[(⟨("t"), 0⟩, ⟨KErr.noError, [], true, 100⟩)]⟩, none⟩ = true ∧
      (⟨32768, 65536, 1, 250, 250000000, 256, true⟩ : Config).fetchMax > 0 ∧
      (⟨⟨("t"), 0, 100, 65536, 5⟩, some 1, none, true, [], false, false, 0, false⟩ :
        RunState).core.fetchSize =
        (⟨32768, 65536, 1, 250, 250000000, 256, true⟩ : Config).fetchMax) ∧
    runStep ⟨32768, 65536, 1, 250, 250000000, 256, true⟩
        ⟨⟨("t"), 0, 100, 65536, 5⟩, some 1, none, true, [], false, false, 0, false⟩
        (.fetchResult ⟨some ⟨[(⟨("t"), 0⟩, ⟨KErr.noError, [], true, 100⟩)]⟩, none⟩ 0) =
      some (⟨⟨("t"), 0, 101, 65536, 5⟩, some 1, some 1, false, [], false, false, 0, false⟩,
        [RunOutput.reported (.kerr .messageTooLarge)]) :=
  ⟨⟨rfl, rfl, by decide, by decide, by decide⟩,
    (spec_C6_skip_too_large ⟨32768, 65536, 1, 250, 250000000, 256, true⟩
      ⟨⟨("t"), 0, 100, 65536, 5⟩, some 1, none, true, [], false, false, 0, false⟩
      ⟨some ⟨[(⟨("t"), 0⟩, ⟨KErr.noError, [], true, 100⟩)]⟩, none⟩ 0
      rfl rfl (by decide) (by decide) (by decide)).1⟩

/-- `emittedOf` distributes over append. -/
theorem emittedOf_append (a b : List RunOutput) :
    emittedOf (a ++ b) = emittedOf a ++ emittedOf b := by
  simp [emittedOf]

/-- Reported errors contribute no emitted messages. -/
theorem emittedOf_reported (es : List GoErr) :
    emittedOf (es.map RunOutput.reported) = [] := by
  induction es with
  | nil => rfl
  | cons e es ih =>
    simp only [List.map_cons, emittedOf, List.filterMap_cons]
    exact ih

/-- One enabled step of the run loop preserves the loop invariant, keeps the
stream identity, never decreases the offset, and emits only messages that
are at or above the pre-state offset and strictly below the post-state
offset, in strictly increasing order. -/
theorem runStep_inv (cfg : Config) (s : RunState) (e : RunEvent)
    (s' : RunState) (outs : List RunOutput) (hInv : StreamInv s)
    (hsort : SortedEvent s.core.topic s.core.partition e)
    (hstep : runStep cfg s e = some (s', outs)) :
    StreamInv s' ∧
    s'.core.topic = s.core.topic ∧
    s'.core.partition = s.core.partition ∧
    s.core.offset ≤ s'.core.offset ∧
    (emittedOf outs).Pairwise (fun a b => a.offset < b.offset) ∧
    (∀ m ∈ emittedOf outs, s.core.offset ≤ m.offset ∧ m.offset < s'.core.offset) := by
  obtain ⟨hP, hO, hD, hAD, hDB, hAB⟩ := hInv
  have hclosed : s.closed = false := by
    cases hc : s.closed
    · rfl
    · simp [runStep, hc] at hstep
  cases e with
  | assign be now =>
    cases be with
    | none =>
      simp only [runStep, hclosed, Bool.false_eq_true, if_false,
        triggerOrScheduleReassign] at hstep
      split at hstep <;>
        (simp only [Option.some.injEq, Prod.mk.injEq] at hstep
         obtain ⟨rfl, rfl⟩ := hstep
         exact ⟨⟨hP, hO, hD, hAD, hDB, hAB⟩, rfl, rfl, le_refl _, by simp [emittedOf],
           by simp [emittedOf]⟩)
    | some b =>
      simp only [runStep, hclosed, Bool.false_eq_true, if_false,
        Option.some.injEq, Prod.mk.injEq] at hstep
      obtain ⟨rfl, rfl⟩ := hstep
      by_cases hcond : s.awaitingFetch = false ∧ s.delivering = false
      · refine ⟨⟨hP, hO, hD, ?_, ?_, ?_⟩, rfl, rfl, le_refl _, by simp [emittedOf],
          by simp [emittedOf]⟩
        · intro h
          exact hAD h
        · intro h
          rw [hcond.2] at h
          exact absurd h (by simp)
        · intro h
          rw [hcond.1] at h
          exact absurd h (by simp)
      · refine ⟨⟨hP, hO, hD, ?_, ?_, ?_⟩, rfl, rfl, le_refl _, by simp [emittedOf],
          by simp [emittedOf]⟩
        · intro h
          exact hAD h
        · intro h
          simp only [hcond, if_neg, if_false]
          exact hDB h
        · intro h
          simp only [hcond, if_neg, if_false]
          exact hAB h
  | sendRequest =>
    cases hbr : s.brokerReqCh with
    | none => simp [runStep, hclosed, hbr] at hstep
    | some b =>
      simp only [runStep, hclosed, Bool.false_eq_true, if_false, hbr,
        Option.some.injEq, Prod.mk.injEq] at hstep
      obtain ⟨rfl, rfl⟩ := hstep
      have hdel : s.delivering = false := by
        cases hde : s.delivering
        · rfl
        · rw [hDB hde] at hbr
          exact absurd hbr (by simp)
      refine ⟨⟨hP, hO, ?_, ?_, ?_, ?_⟩, rfl, rfl, le_refl _, by simp [emittedOf],
        by simp [emittedOf]⟩
      · intro h
        exact hD hdel
      · intro h
        exact hdel
      · intro h
        simp [hdel] at h
      · intro h
        rfl
  | retryTimer =>
    cases hta : s.timerArmed with
    | false => simp [runStep, hclosed, hta] at hstep
    | true =>
      simp only [runStep, hclosed, Bool.false_eq_true, if_false, hta,
        Option.some.injEq, Prod.mk.injEq] at hstep
      simp only [Bool.true_eq_false, if_false] at hstep
      obtain ⟨rfl, rfl⟩ := hstep
      exact ⟨⟨hP, hO, hD, hAD, hDB, hAB⟩, rfl, rfl, le_refl _, by simp [emittedOf],
        by simp [emittedOf]⟩
  | closing =>
    simp only [runStep, hclosed, Bool.false_eq_true, if_false,
      Option.some.injEq, Prod.mk.injEq] at hstep
    obtain ⟨rfl, rfl⟩ := hstep
    exact ⟨⟨hP, hO, hD, hAD, hDB, hAB⟩, rfl, rfl, le_refl _, by simp [emittedOf],
      by simp [emittedOf]⟩
  | deliver =>
    cases hde : s.delivering with
    | false => simp [runStep, hclosed, hde] at hstep
    | true =>
      cases hpe : s.pending with
      | nil => simp [runStep, hclosed, hde, hpe] at hstep
      | cons m rest =>
        have hmo : s.core.offset ≤ m.offset := hO m (by rw [hpe]; exact List.mem_cons_self m rest)
        have hrest : ∀ x ∈ rest, m.offset < x.offset := by
          have := hP
          rw [hpe, List.pairwise_cons] at this
          exact this.1
        have hrestP : rest.Pairwise (fun a b => a.offset < b.offset) := by
          have := hP
          rw [hpe, List.pairwise_cons] at this
          exact this.2
        have hnaw : s.awaitingFetch = false := by
          cases haw : s.awaitingFetch
          · rfl
          · rw [hAD haw] at hde
            exact absurd hde (by simp)
        cases rest with
        | nil =>
          simp only [runStep, hclosed, Bool.false_eq_true, if_false, hde, hpe,
            List.length_nil, if_pos, Option.some.injEq, Prod.mk.injEq] at hstep
          simp only [Bool.true_eq_false, if_false] at hstep
          obtain ⟨rfl, rfl⟩ := hstep
          refine ⟨⟨by simp, by simp, by simp, ?_, by simp, ?_⟩, rfl, rfl, by simp; omega,
            ?_, ?_⟩
          · intro h
            simp [hnaw] at h
          · intro h
            simp [hnaw] at h
          · simp [emittedOf]
          · intro x hx
            simp [emittedOf] at hx
            subst hx
            simp
            omega
        | cons m2 rest2 =>
          simp only [runStep, hclosed, Bool.false_eq_true, if_false, hde, hpe,
            Option.some.injEq, Prod.mk.injEq] at hstep
          rw [if_neg (by simp)] at hstep
          obtain ⟨rfl, rfl⟩ := hstep
          refine ⟨⟨hrestP, ?_, ?_, ?_, ?_, ?_⟩, rfl, rfl, by simp; omega, ?_, ?_⟩
          · intro x hx
            have := hrest x hx
            simp
            omega
          · intro h
            simp at h
          · intro h
            simp [hnaw] at h
          · intro h
            exact hDB hde
          · intro h
            simp [hnaw] at h
          · simp [emittedOf]
          · intro x hx
            simp [emittedOf] at hx
            subst hx
            simp
            omega
  | fetchResult r now =>
    cases haw : s.awaitingFetch with
    | false => simp [runStep, hclosed, haw] at hstep
    | true =>
      have hdel : s.delivering = false := hAD haw
      have hpend : s.pending = [] := hD hdel
      have hbr : s.brokerReqCh = none := hAB haw
      have hbasic := parse_state_basic cfg s.core r
      simp only [runStep, hclosed, Bool.false_eq_true, if_false, haw,
        Bool.true_eq_false] at hstep
      cases hres : (parseFetchResult cfg s.core r).result with
      | error err =>
        simp only [hres] at hstep
        by_cases herr : err = GoErr.kerr KErr.offsetOutOfRange
        · rw [if_pos herr] at hstep
          simp only [Option.some.injEq, Prod.mk.injEq] at hstep
          obtain ⟨rfl, rfl⟩ := hstep
          refine ⟨⟨by simp [hpend], by simp [hpend], by simp [hpend], ?_, ?_, ?_⟩,
            hbasic.1, hbasic.2.1, hbasic.2.2, ?_, ?_⟩
          · intro h
            exact hdel
          · intro h
            simp [hdel] at h
          · intro h
            exact hbr
          · rw [emittedOf_append, emittedOf_reported]
            simp [emittedOf]
          · rw [emittedOf_append, emittedOf_reported]
            simp [emittedOf]
        · rw [if_neg herr] at hstep
          simp only [triggerOrScheduleReassign] at hstep
          split at hstep <;>
            (simp only [Option.some.injEq, Prod.mk.injEq] at hstep
             obtain ⟨rfl, rfl⟩ := hstep
             refine ⟨⟨by simp [hpend], by simp [hpend], by simp [hpend], ?_, ?_, ?_⟩,
               hbasic.1, hbasic.2.1, hbasic.2.2, ?_, ?_⟩
             · intro h
               exact hdel
             · intro h
               simp [hdel] at h
             · intro h
               exact hbr
             · rw [emittedOf_append, emittedOf_append, emittedOf_reported]
               simp [emittedOf]
             · rw [emittedOf_append, emittedOf_append, emittedOf_reported]
               simp [emittedOf])
      | ok msgs =>
        simp only [hres] at hstep
        by_cases hlen : msgs.length = 0
        · rw [if_pos hlen] at hstep
          simp only [Option.some.injEq, Prod.mk.injEq] at hstep
          obtain ⟨rfl, rfl⟩ := hstep
          refine ⟨⟨by simp [hpend], by simp [hpend], by simp [hpend], ?_, ?_, ?_⟩,
            hbasic.1, hbasic.2.1, hbasic.2.2, ?_, ?_⟩
          · intro h
            exact hdel
          · intro h
            simp [hdel] at h
          · intro h
            simp at h
          · simp [emittedOf_reported]
          · simp [emittedOf_reported]
        · rw [if_neg hlen] at hstep
          simp only [Option.some.injEq, Prod.mk.injEq] at hstep
          obtain ⟨rfl, rfl⟩ := hstep
          have hne : msgs ≠ [] := by
            intro hh
            rw [hh] at hlen
            exact hlen rfl
          have hok := parse_ok_nonempty cfg s.core r msgs hres hne
          simp only [SortedEvent] at hsort
          refine ⟨⟨?_, ?_, ?_, ?_, ?_, ?_⟩, hbasic.1, hbasic.2.1, hbasic.2.2, ?_, ?_⟩
          · simpa using hok.2.2.2 hsort
          · intro m hm
            have := hok.2.2.1 m hm
            simp [hok.1]
            omega
          · intro h
            simp at h
          · intro h
            simp at h
          · intro h
            exact hbr
          · intro h
            simp at h
          · simp [emittedOf_reported]
          · simp [emittedOf_reported]

/-- Claim C5: over any run of the message stream's loop (any event trace from
a state satisfying the loop invariant, with fetch responses listing their
block's messages in increasing offset order), the stream identity is fixed,
the offset never decreases, and the emitted messages have strictly
increasing offsets, all at or above the starting offset and strictly below
the final offset (which is what the next fetch will request). -/
theorem spec_C5_offset_monotonicity (cfg : Config) (s : RunState) (es : List RunEvent)
    (hInv : StreamInv s)
    (hsort : ∀ e ∈ es, SortedEvent s.core.topic s.core.partition e) :
    StreamInv (runTrace cfg s es).1 ∧
    (runTrace cfg s es).1.core.topic = s.core.topic ∧
    (runTrace cfg s es).1.core.partition = s.core.partition ∧
    s.core.offset ≤ (runTrace cfg s es).1.core.offset ∧
    (emittedOf (runTrace cfg s es).2).Pairwise (fun a b => a.offset < b.offset) ∧
    (∀ m ∈ emittedOf (runTrace cfg s es).2,
      s.core.offset ≤ m.offset ∧ m.offset < (runTrace cfg s es).1.core.offset) := by
  induction es generalizing s with
  | nil =>
    exact ⟨hInv, rfl, rfl, le_refl _, by simp [runTrace, emittedOf],
      by simp [runTrace, emittedOf]⟩
  | cons e es ih =>
    have hse : SortedEvent s.core.topic s.core.partition e :=
      hsort e (List.mem_cons_self e es)
    have hses : ∀ x ∈ es, SortedEvent s.core.topic s.core.partition x :=
      fun x hx => hsort x (List.mem_cons_of_mem e hx)
    cases hstep : runStep cfg s e with
    | none =>
      simp only [runTrace, hstep]
      exact ih s hInv hses
    | some val =>
      obtain ⟨s1, outs⟩ := val
      obtain ⟨hInv1, htop, hpart, hmono, hpw, hbound⟩ :=
        runStep_inv cfg s e s1 outs hInv hse hstep
      have hses1 : ∀ x ∈ es, SortedEvent s1.core.topic s1.core.partition x := by
        intro x hx
        rw [htop, hpart]
        exact hses x hx
      obtain ⟨iInv, iTop, iPart, iMono, iPw, iBound⟩ := ih s1 hInv1 hses1
      simp only [runTrace, hstep]
      refine ⟨iInv, iTop.trans htop, iPart.trans hpart, le_trans hmono iMono, ?_, ?_⟩
      · show (emittedOf (outs ++ (runTrace cfg s1 es).2)).Pairwise
          (fun a b => a.offset < b.offset)
        rw [emittedOf_append]
        refine List.pairwise_append.mpr ⟨hpw, iPw, ?_⟩
        intro a ha b hb
        have h1 := (hbound a ha).2
        have h2 := (iBound b hb).1
        omega
      · show ∀ m ∈ emittedOf (outs ++ (runTrace cfg s1 es).2),
          s.core.offset ≤ m.offset ∧ m.offset < (runTrace cfg s1 es).1.core.offset
        simp only [emittedOf_append]
        intro m hm
        rcases List.mem_append.mp hm with hm | hm
        · obtain ⟨hh1, hh2⟩ := hbound m hm
          exact ⟨hh1, by omega⟩
        · obtain ⟨hh1, hh2⟩ := iBound m hm
          exact ⟨by omega, hh2⟩

/-- Witness for C5 at the spec's S3 scenario: assign a broker, send one
fetch, receive records 100,101,102 (HWM 105), deliver all three. -/
theorem spec_C5_offset_monotonicity_witness :
    StreamInv (⟨⟨("t"), 0, 100, 32768, 0⟩, none, none, false, [], false, false, 0, false⟩ :
      RunState) ∧
    (∀ e ∈ ([.assign (some 1) 0, .sendRequest,
        .fetchResult ⟨some ⟨[(⟨("t"), 0⟩, ⟨KErr.noError,
          [⟨[⟨100, [], []⟩, ⟨101, [], []⟩, ⟨102, [], []⟩]⟩], false, 105⟩)]⟩, none⟩ 0,
        .deliver, .deliver, .deliver] : List RunEvent),
      SortedEvent ("t") 0 e) ∧
    (StreamInv (runTrace ⟨32768, 0, 1, 250, 250000000, 256, true⟩
        ⟨⟨("t"), 0, 100, 32768, 0⟩, none, none, false, [], false, false, 0, false⟩
        [.assign (some 1) 0, .sendRequest,
          .fetchResult ⟨some ⟨[(⟨("t"), 0⟩, ⟨KErr.noError,
            [⟨[⟨100, [], []⟩, ⟨101, [], []⟩, ⟨102, [], []⟩]⟩], false, 105⟩)]⟩, none⟩ 0,
          .deliver, .deliver, .deliver]).1 ∧
      (runTrace ⟨32768, 0, 1, 250, 250000000, 256, true⟩
        ⟨⟨("t"), 0, 100, 32768, 0⟩, none, none, false, [], false, false, 0, false⟩
        [.assign (some 1) 0, .sendRequest,
          .fetchResult ⟨some ⟨[(⟨("t"), 0⟩, ⟨KErr.noError,
            [⟨[⟨100, [], []⟩, ⟨101, [], []⟩, ⟨102, [], []⟩]⟩], false, 105⟩)]⟩, none⟩ 0,
          .deliver, .deliver, .deliver]).1.core.topic = ("t") ∧
      (runTrace ⟨32768, 0, 1, 250, 250000000, 256, true⟩
        ⟨⟨("t"), 0, 100, 32768, 0⟩, none, none, false, [], false, false, 0, false⟩
        [.assign (some 1) 0, .sendRequest,
          .fetchResult ⟨some ⟨[(⟨("t"), 0⟩, ⟨KErr.noError,
            [⟨[⟨100, [], []⟩, ⟨101, [], []⟩, ⟨102, [], []⟩]⟩], false, 105⟩)]⟩, none⟩ 0,
          .deliver, .deliver, .deliver]).1.core.partition = 0 ∧
      (100 : Int) ≤ (runTrace ⟨32768, 0, 1, 250, 250000000, 256, true⟩
        ⟨⟨("t"), 0, 100, 32768, 0⟩, none, none, false, [], false, false, 0, false⟩
        [.assign (some 1) 0, .sendRequest,
          .fetchResult ⟨some ⟨[(⟨("t"), 0⟩, ⟨KErr.noError,
            [⟨[⟨100, [], []⟩, ⟨101, [], []⟩, ⟨102, [], []⟩]⟩], false, 105⟩)]⟩, none⟩ 0,
          .deliver, .deliver, .deliver]).1.core.offset ∧
      (emittedOf (runTrace ⟨32768, 0, 1, 250, 250000000, 256, true⟩
        ⟨⟨("t"), 0, 100, 32768, 0⟩, none, none, false, [], false, false, 0, false⟩
        [.assign (some 1) 0, .sendRequest,
          .fetchResult ⟨some ⟨[(⟨("t"), 0⟩, ⟨KErr.noError,
            [⟨[⟨100, [], []⟩, ⟨101, [], []⟩, ⟨102, [], []⟩]⟩], false, 105⟩)]⟩, none⟩ 0,
          .deliver, .deliver, .deliver]).2).Pairwise (fun a b => a.offset < b.offset) ∧
      (∀ m ∈ emittedOf (runTrace ⟨32768, 0, 1, 250, 250000000, 256, true⟩
        ⟨⟨("t"), 0, 100, 32768, 0⟩, none, none, false, [], false, false, 0, false⟩
        [.assign (some 1) 0, .sendRequest,
          .fetchResult ⟨some ⟨[(⟨("t"), 0⟩, ⟨KErr.noError,
            [⟨[⟨100, [], []⟩, ⟨101, [], []⟩, ⟨102, [], []⟩]⟩], false, 105⟩)]⟩, none⟩ 0,
          .deliver, .deliver, .deliver]).2,
        (100 : Int) ≤ m.offset ∧ m.offset < (runTrace ⟨32768, 0, 1, 250, 250000000, 256, true⟩
          ⟨⟨("t"), 0, 100, 32768, 0⟩, none, none, false, [], false, false, 0, false⟩
          [.assign (some 1) 0, .sendRequest,
            .fetchResult ⟨some ⟨[(⟨("t"), 0⟩, ⟨KErr.noError,
              [⟨[⟨100, [], []⟩, ⟨101, [], []⟩, ⟨102, [], []⟩]⟩], false, 105⟩)]⟩, none⟩ 0,
            .deliver, .deliver, .deliver]).1.core.offset)) :=
  ⟨by decide, by decide,
    spec_C5_offset_monotonicity ⟨32768, 0, 1, 250, 250000000, 256, true⟩
      ⟨⟨("t"), 0, 100, 32768, 0⟩, none, none, false, [], false, false, 0, false⟩
      [.assign (some 1) 0, .sendRequest,
        .fetchResult ⟨some ⟨[(⟨("t"), 0⟩, ⟨KErr.noError,
          [⟨[⟨100, [], []⟩, ⟨101, [], []⟩, ⟨102, [], []⟩]⟩], false, 105⟩)]⟩, none⟩ 0,
        .deliver, .deliver, .deliver] (by decide) (by decide)⟩

/-- One-step unfolding of `runTrace` on an enabled event. -/
theorem runTrace_cons_some (cfg : Config) (s s1 : RunState) (e : RunEvent)
    (outs : List RunOutput) (es : List RunEvent)
    (h : runStep cfg s e = some (s1, outs)) :
    runTrace cfg s (e :: es) =
      ((runTrace cfg s1 es).1, outs ++ (runTrace cfg s1 es).2) := by
  simp [runTrace, h]

/-- Draining a pending batch: one `deliver` event per pending message emits
exactly the batch in order, ends with offset just past the last message,
leaves `lag` (set at parse time) untouched, and re-enables the request arm. -/
theorem drainDeliver (cfg : Config) : ∀ (ps : List ConsumerMessage) (s : RunState),
    s.closed = false → s.delivering = true → s.pending = ps → ps ≠ [] →
    emittedOf (runTrace cfg s (List.replicate ps.length RunEvent.deliver)).2 = ps ∧
    (∀ m, ps.getLast? = some m →
      (runTrace cfg s (List.replicate ps.length RunEvent.deliver)).1.core.offset =
        m.offset + 1) ∧
    (runTrace cfg s (List.replicate ps.length RunEvent.deliver)).1.core.lag = s.core.lag ∧
    (runTrace cfg s (List.replicate ps.length RunEvent.deliver)).1.delivering = false ∧
    (runTrace cfg s (List.replicate ps.length RunEvent.deliver)).1.pending = [] ∧
    (runTrace cfg s (List.replicate ps.length RunEvent.deliver)).1.brokerReqCh =
      s.assignedBroker ∧
    (runTrace cfg s (List.replicate ps.length RunEvent.deliver)).1.core.fetchSize =
      s.core.fetchSize := by
  intro ps
  induction ps with
  | nil => intro s _ _ _ hne; exact absurd rfl hne
  | cons m rest ih =>
    intro s hc hd hp hne
    cases rest with
    | nil =>
      have hstep : runStep cfg s RunEvent.deliver =
          some ({ s with
            core := {s.core with offset := m.offset + 1}
            pending := []
            delivering := false
            brokerReqCh := s.assignedBroker }, [RunOutput.emitted m]) := by
        simp [runStep, hc, hd, hp]
      simp [List.replicate, runTrace, hstep, emittedOf]
    | cons m2 rest2 =>
      have hstep : runStep cfg s RunEvent.deliver =
          some (⟨⟨s.core.topic, s.core.partition, m.offset + 1, s.core.fetchSize,
              s.core.lag⟩, s.assignedBroker, s.brokerReqCh, s.awaitingFetch,
              m2 :: rest2, s.delivering, s.timerArmed, s.lastReassignTime, s.closed⟩,
            [RunOutput.emitted m]) := by
        simp [runStep, hc, hd, hp]
      have ihr := ih ⟨⟨s.core.topic, s.core.partition, m.offset + 1, s.core.fetchSize,
          s.core.lag⟩, s.assignedBroker, s.brokerReqCh, s.awaitingFetch,
          m2 :: rest2, s.delivering, s.timerArmed, s.lastReassignTime, s.closed⟩
        hc hd rfl (by simp)
      obtain ⟨ih1, ih2, ih3, ih4, ih5, ih6, ih7⟩ := ihr
      have hrep : List.replicate (m :: m2 :: rest2).length RunEvent.deliver =
          RunEvent.deliver :: List.replicate (m2 :: rest2).length RunEvent.deliver := by
        simp [List.replicate_succ]
      rw [hrep, runTrace_cons_some cfg s _ _ _
        (List.replicate (m2 :: rest2).length RunEvent.deliver) hstep]
      refine ⟨?_, ?_, ih3, ih4, ih5, ih6, ih7⟩
      · show emittedOf ([RunOutput.emitted m] ++ _) = _
        rw [emittedOf_append, ih1]
        simp [emittedOf]
      · intro x hx
        rw [List.getLast?_cons_cons] at hx
        exact ih2 x hx

/-- Claim C9 counterexample: broker returns records 100,101,102 with
HWM 105; after delivering only the first message (offset 100) the stream's
`lag` is already `3 = 105 - 102` — set at parse time from the **last** kept
record — not `105 - 100 = 5` as the per-delivery update in the claim
requires (the offset part, `offset = 100 + 1`, does hold). -/
theorem spec_C9_cex :
    emittedOf (runTrace ⟨32768, 0, 1, 250, 250000000, 256, true⟩
        ⟨⟨("t"), 0, 100, 32768, 0⟩, some 1, none, true, [], false, false, 0, false⟩
        [.fetchResult ⟨some ⟨[(⟨("t"), 0⟩, ⟨KErr.noError,
          [⟨[⟨100, [], []⟩, ⟨101, [], []⟩, ⟨102, [], []⟩]⟩], false, 105⟩)]⟩, none⟩ 0,
          .deliver]).2 =
      [⟨("t"), 0, [], [], 100, 105⟩] ∧
    (runTrace ⟨32768, 0, 1, 250, 250000000, 256, true⟩
        ⟨⟨("t"), 0, 100, 32768, 0⟩, some 1, none, true, [], false, false, 0, false⟩
        [.fetchResult ⟨some ⟨[(⟨("t"), 0⟩, ⟨KErr.noError,
          [⟨[⟨100, [], []⟩, ⟨101, [], []⟩, ⟨102, [], []⟩]⟩], false, 105⟩)]⟩, none⟩ 0,
          .deliver]).1.core.offset = 100 + 1 ∧
    (runTrace ⟨32768, 0, 1, 250, 250000000, 256, true⟩
        ⟨⟨("t"), 0, 100, 32768, 0⟩, some 1, none, true, [], false, false, 0, false⟩
        [.fetchResult ⟨some ⟨[(⟨("t"), 0⟩, ⟨KErr.noError,
          [⟨[⟨100, [], []⟩, ⟨101, [], []⟩, ⟨102, [], []⟩]⟩], false, 105⟩)]⟩, none⟩ 0,
          .deliver]).1.core.lag = 3 ∧
    ¬ ((105 : Int) - 100 = 3) := by decide

/-- Claim C9 (amended): delivering a message advances `offset` to
`message.offset + 1`, while `lag` is set once at parse time to
`highWaterMark - (offset of the last kept record)`; hence after draining a
whole batch of records (all at or above the current offset, HWM `H`, last
record `on`) the stream ends with `offset = on + 1` and `lag = H - on`, and
goes back to requesting from its assigned broker. -/
theorem spec_C9_drain_state (cfg : Config) (s : RunState) (r : FetchRes)
    (resp : FetchResponse) (b : FetchResponseBlock) (now : Int)
    (hclosed : s.closed = false) (haw : s.awaitingFetch = true)
    (hr : r.err = none) (hresp : r.response = some resp)
    (hb : resp.getBlock s.core.topic s.core.partition = some b)
    (hbe : b.blockErr = KErr.noError) (hms : b.msgSetMessages ≠ [])
    (hge : ∀ en ∈ flatEntries b, s.core.offset ≤ en.offset)
    (hne : flatEntries b ≠ []) :
    emittedOf (runTrace cfg s (RunEvent.fetchResult r now ::
        List.replicate (flatEntries b).length RunEvent.deliver)).2 =
      (flatEntries b).map (mkConsumerMsg s.core b.highWaterMarkOffset) ∧
    (∀ en, (flatEntries b).getLast? = some en →
      (runTrace cfg s (RunEvent.fetchResult r now ::
          List.replicate (flatEntries b).length RunEvent.deliver)).1.core.offset =
        en.offset + 1 ∧
      (runTrace cfg s (RunEvent.fetchResult r now ::
          List.replicate (flatEntries b).length RunEvent.deliver)).1.core.lag =
        b.highWaterMarkOffset - en.offset) ∧
    (runTrace cfg s (RunEvent.fetchResult r now ::
        List.replicate (flatEntries b).length RunEvent.deliver)).1.brokerReqCh =
      s.assignedBroker := by
  have hkeq : keptEntries s.core b = flatEntries b := by
    unfold keptEntries
    apply List.filter_eq_self.mpr
    intro a ha
    have := hge a ha
    simp only [Bool.not_eq_true']
    rw [decide_eq_false_iff_not]
    omega
  have hp := parse_success cfg s.core r resp b hr hresp hb hbe hms
    (by rw [hkeq]; exact hne)
  rw [hkeq] at hp
  have hmne : (flatEntries b).map (mkConsumerMsg s.core b.highWaterMarkOffset) ≠ [] := by
    simp only [ne_eq, List.map_eq_nil_iff]
    exact hne
  have hstep : runStep cfg s (RunEvent.fetchResult r now) =
      some (⟨⟨s.core.topic, s.core.partition, s.core.offset, cfg.fetchDefault,
          succLag s.core b⟩, s.assignedBroker, s.brokerReqCh, false,
          (flatEntries b).map (mkConsumerMsg s.core b.highWaterMarkOffset), true,
          s.timerArmed, s.lastReassignTime, s.closed⟩, []) := by
    simp [runStep, hclosed, haw, hp, hne]
  have hlm : ((flatEntries b).map (mkConsumerMsg s.core b.highWaterMarkOffset)).length =
      (flatEntries b).length := List.length_map _ _
  rw [← hlm, runTrace_cons_some cfg s _ _ _
    (List.replicate ((flatEntries b).map
      (mkConsumerMsg s.core b.highWaterMarkOffset)).length RunEvent.deliver) hstep]
  obtain ⟨hd1, hd2, hd3, hd4, hd5, hd6, hd7⟩ :=
    drainDeliver cfg ((flatEntries b).map (mkConsumerMsg s.core b.highWaterMarkOffset))
      ⟨⟨s.core.topic, s.core.partition, s.core.offset, cfg.fetchDefault,
        succLag s.core b⟩, s.assignedBroker, s.brokerReqCh, false,
        (flatEntries b).map (mkConsumerMsg s.core b.highWaterMarkOffset), true,
        s.timerArmed, s.lastReassignTime, s.closed⟩ hclosed rfl rfl hmne
  refine ⟨?_, ?_, ?_⟩
  · show emittedOf ([] ++ _) = _
    rw [List.nil_append]
    exact hd1
  · intro en hlast
    have hmlast : ((flatEntries b).map
        (mkConsumerMsg s.core b.highWaterMarkOffset)).getLast? =
        some (mkConsumerMsg s.core b.highWaterMarkOffset en) := by
      rw [List.getLast?_map, hlast]
      rfl
    constructor
    · exact hd2 (mkConsumerMsg s.core b.highWaterMarkOffset en) hmlast
    · show _ = b.highWaterMarkOffset - en.offset
      rw [hd3]
      show succLag s.core b = _
      unfold succLag
      rw [hkeq, hlast]
  · exact hd6

/-- Witness for the amended C9 at the S3 scenario: draining records
100,101,102 with HWM 105 ends at `offset = 103` and `lag = 105 - 102 = 3`. -/
theorem spec_C9_drain_state_witness :
    ((⟨⟨("t"), 0, 100, 32768, 0⟩, some 1, none, true, [], false, false, 0, false⟩ :
        RunState).closed = false ∧
      (⟨⟨("t"), 0, 100, 32768, 0⟩, some 1, none, true, [], false, false, 0, false⟩ :
        RunState).awaitingFetch = true ∧
      (⟨some ⟨[(⟨("t"), 0⟩, ⟨KErr.noError,
          [⟨[⟨100, [], []⟩, ⟨101, [], []⟩, ⟨102, [], []⟩]⟩], false, 105⟩)]⟩, none⟩ :
        FetchRes).err = none ∧
      (∀ en ∈ flatEntries ⟨KErr.noError,
          [⟨[⟨100, [], []⟩, ⟨101, [], []⟩, ⟨102, [], []⟩]⟩], false, 105⟩,
        (100 : Int) ≤ en.offset) ∧
      (flatEntries ⟨KErr.noError,
          [⟨[⟨100, [], []⟩, ⟨101, [], []⟩, ⟨102, [], []⟩]⟩], false, 105⟩).getLast? =
        some ⟨102, [], []⟩) ∧
    ((runTrace ⟨32768, 0, 1, 250, 250000000, 256, true⟩
        ⟨⟨("t"), 0, 100, 32768, 0⟩, some 1, none, true, [], false, false, 0, false⟩
        (RunEvent.fetchResult ⟨some ⟨[(⟨("t"), 0⟩, ⟨KErr.noError,
            [⟨[⟨100, [], []⟩, ⟨101, [], []⟩, ⟨102, [], []⟩]⟩], false, 105⟩)]⟩, none⟩ 0 ::
          List.replicate (flatEntries ⟨KErr.noError,
            [⟨[⟨100, [], []⟩, ⟨101, [], []⟩, ⟨102, [], []⟩]⟩], false, 105⟩).length
            RunEvent.deliver)).1.core.offset = (102 : Int) + 1 ∧
      (runTrace ⟨32768, 0, 1, 250, 250000000, 256, true⟩
        ⟨⟨("t"), 0, 100, 32768, 0⟩, some 1, none, true, [], false, false, 0, false⟩
        (RunEvent.fetchResult ⟨some ⟨[(⟨("t"), 0⟩, ⟨KErr.noError,
            [⟨[⟨100, [], []⟩, ⟨101, [], []⟩, ⟨102, [], []⟩]⟩], false, 105⟩)]⟩, none⟩ 0 ::
          List.replicate (flatEntries ⟨KErr.noError,
            [⟨[⟨100, [], []⟩, ⟨101, [], []⟩, ⟨102, [], []⟩]⟩], false, 105⟩).length
            RunEvent.deliver)).1.core.lag = 105 - (102 : Int)) :=
  by
  refine ⟨⟨rfl, rfl, rfl, by decide, by decide⟩, ?_⟩
  have hmain := spec_C9_drain_state ⟨32768, 0, 1, 250, 250000000, 256, true⟩
    ⟨⟨("t"), 0, 100, 32768, 0⟩, some 1, none, true, [], false, false, 0, false⟩
    ⟨some ⟨[(⟨("t"), 0⟩, ⟨KErr.noError,
      [⟨[⟨100, [], []⟩, ⟨101, [], []⟩, ⟨102, [], []⟩]⟩], false, 105⟩)]⟩, none⟩
    ⟨[(⟨("t"), 0⟩, ⟨KErr.noError,
      [⟨[⟨100, [], []⟩, ⟨101, [], []⟩, ⟨102, [], []⟩]⟩], false, 105⟩)]⟩
    ⟨KErr.noError, [⟨[⟨100, [], []⟩, ⟨101, [], []⟩, ⟨102, [], []⟩]⟩], false, 105⟩ 0
    rfl rfl rfl (by decide) rfl (by decide) (by decide) (by decide) (by decide)
  exact hmain.2.1 ⟨102, [], []⟩ (by decide)

/-- Once the aggregator loop has returned it consumes nothing further. -/
theorem aggRun_returned : ∀ (es : List AggEvent) (s : AggState),
    s.returned = true → aggRun s es = (s, [], []) := by
  intro es
  induction es with
  | nil => intro s _; rfl
  | cons e es ih =>
    intro s hret
    have hstep : aggStep s e = none := by simp [aggStep, hret]
    simp only [aggRun, hstep]
    exact ih s hret

/-- Aggregator conservation: the requests in the handed-over batches
followed by the still-buffered batch are exactly the buffer's initial
content followed by every accepted request, in order. -/
theorem aggRun_conservation : ∀ (es : List AggEvent) (s : AggState),
    (aggRun s es).2.1.flatten ++ (aggRun s es).1.batchRequest =
      s.batchRequest ++ (aggRun s es).2.2 := by
  intro es
  induction es with
  | nil => intro s; simp [aggRun]
  | cons e es ih =>
    intro s
    cases hret : s.returned with
    | true =>
      have hstep : aggStep s e = none := by simp [aggStep, hret]
      simp only [aggRun, hstep]
      exact ih s
    | false =>
      cases e with
      | recv fr =>
        have hstep : aggStep s (AggEvent.recv fr) =
            some (⟨s.batchRequest ++ [fr], true, false⟩, none) := by
          simp [aggStep, hret]
        simp only [aggRun, hstep]
        have := ih ⟨s.batchRequest ++ [fr], true, false⟩
        simp only at this
        simp only [List.nil_append]
        rw [this]
        simp
      | handoff =>
        cases hoff : s.offering with
        | false =>
          have hstep : aggStep s AggEvent.handoff = none := by
            simp [aggStep, hret, hoff]
          simp only [aggRun, hstep]
          exact ih s
        | true =>
          have hstep : aggStep s AggEvent.handoff =
              some (⟨[], false, false⟩, some s.batchRequest) := by
            simp [aggStep, hret, hoff]
          simp only [aggRun, hstep]
          have := ih ⟨[], false, false⟩
          simp only at this
          simp only [List.singleton_append, List.flatten_cons]
          rw [List.append_assoc, this]
      | closedRecv =>
        have hstep : aggStep s AggEvent.closedRecv =
            some (⟨s.batchRequest, s.offering, true⟩, none) := by
          simp [aggStep, hret]
        simp only [aggRun, hstep]
        have := ih ⟨s.batchRequest, s.offering, true⟩
        simp only at this
        simp only [List.nil_append]
        rw [this]

/-- `aggRun` splits over trace concatenation. -/
theorem aggRun_append : ∀ (es1 es2 : List AggEvent) (s : AggState),
    aggRun s (es1 ++ es2) =
      ((aggRun (aggRun s es1).1 es2).1,
        (aggRun s es1).2.1 ++ (aggRun (aggRun s es1).1 es2).2.1,
        (aggRun s es1).2.2 ++ (aggRun (aggRun s es1).1 es2).2.2) := by
  intro es1
  induction es1 with
  | nil => intro es2 s; simp [aggRun]
  | cons e es ih =>
    intro es2 s
    cases hstep : aggStep s e with
    | none =>
      simp only [List.cons_append, aggRun, hstep]
      exact ih es2 s
    | some v =>
      obtain ⟨s1, handed⟩ := v
      simp only [List.cons_append, aggRun, hstep, List.append_eq, ih es2 s1]
      simp [List.append_assoc]

/-- Every branch of the sender replies exactly once to each request of the
batch, in order. -/
theorem senderStep_reply_ids (cfg : Config) (st : ExecState) (env : BatchEnv)
    (batch : List ExecFetchReq) :
    (senderStep cfg st env batch).2.1.map Prod.fst =
      batch.map ExecFetchReq.replyId := by
  unfold senderStep
  repeat' split
  all_goals simp [List.map_map, Function.comp]

/-- Over a whole sender run, the reply targets are exactly the requests of
the processed batches, in order: one reply per handed-over request. -/
theorem senderRun_reply_ids (cfg : Config) :
    ∀ (pairs : List (List ExecFetchReq × BatchEnv)) (st : ExecState),
    (senderRun cfg st pairs).2.1.map Prod.fst =
      (pairs.map Prod.fst).flatten.map ExecFetchReq.replyId := by
  intro pairs
  induction pairs with
  | nil => intro st; rfl
  | cons p rest ih =>
    intro st
    obtain ⟨batch, env⟩ := p
    simp only [senderRun, List.map_cons, List.flatten_cons, List.map_append]
    rw [senderStep_reply_ids, ih]

/-- Claim C7: starting from a sender state that recorded connection error
`e` at time `T`, every batch processed at a time within `[T, T + Backoff)`
is short-circuited: each request of each batch receives exactly the
recorded error (and no response), no wire-level fetch is composed, and the
recorded error and timestamp are unchanged throughout. -/
theorem spec_C7_broker_cooldown (cfg : Config) (e : GoErr) (T : Int)
    (pairs : List (List ExecFetchReq × BatchEnv))
    (hwin : ∀ p ∈ pairs, T ≤ p.2.now ∧ p.2.now < T + cfg.retryBackoff) :
    (senderRun cfg ⟨some e, T⟩ pairs).1 = ⟨some e, T⟩ ∧
    (senderRun cfg ⟨some e, T⟩ pairs).2.1 =
      (pairs.map Prod.fst).flatten.map
        (fun fr => (fr.replyId, (⟨none, some e⟩ : FetchRes))) ∧
    (senderRun cfg ⟨some e, T⟩ pairs).2.2 = [] := by
  revert hwin
  induction pairs with
  | nil => intro _; exact ⟨rfl, rfl, rfl⟩
  | cons p rest ih =>
    intro hwin
    obtain ⟨batch, env⟩ := p
    have hw := hwin (batch, env) (List.mem_cons_self _ _)
    have hcool : env.now - (⟨some e, T⟩ : ExecState).lastErrTime < cfg.retryBackoff := by
      simp only at hw ⊢
      omega
    have hstep : senderStep cfg ⟨some e, T⟩ env batch =
        (⟨some e, T⟩,
          batch.map (fun fr => (fr.replyId, (⟨none, some e⟩ : FetchRes))), none) := by
      unfold senderStep
      rw [if_pos hcool]
    have ihr := ih (fun q hq => hwin q (List.mem_cons_of_mem _ hq))
    simp only [senderRun, hstep]
    refine ⟨ihr.1, ?_, ?_⟩
    · simp only [List.map_cons, List.flatten_cons, List.map_append]
      rw [ihr.2.1]
    · simp only [List.nil_append]
      exact ihr.2.2

/-- Witness for C7: error recorded at `T = 1000` with `Backoff = 100`; a
batch of one request arrives at `now = 1050`, gets the recorded error with
no wire call. -/
theorem spec_C7_broker_cooldown_witness :
    (∀ p ∈ ([([⟨("t"), 0, 100, 1024, 0, 1⟩],
        ⟨1050, 1055, Except.error (GoErr.netError 9)⟩)] :
          List (List ExecFetchReq × BatchEnv)),
      (1000 : Int) ≤ p.2.now ∧
        p.2.now < 1000 + (⟨32768, 0, 1, 250, 100, 256, true⟩ : Config).retryBackoff) ∧
    ((senderRun ⟨32768, 0, 1, 250, 100, 256, true⟩ ⟨some (GoErr.netError 7), 1000⟩
        [([⟨("t"), 0, 100, 1024, 0, 1⟩],
          ⟨1050, 1055, Except.error (GoErr.netError 9)⟩)]).1 =
      ⟨some (GoErr.netError 7), 1000⟩ ∧
     (senderRun ⟨32768, 0, 1, 250, 100, 256, true⟩ ⟨some (GoErr.netError 7), 1000⟩
        [([⟨("t"), 0, 100, 1024, 0, 1⟩],
          ⟨1050, 1055, Except.error (GoErr.netError 9)⟩)]).2.1 =
      (([([⟨("t"), 0, 100, 1024, 0, 1⟩],
          ⟨1050, 1055, Except.error (GoErr.netError 9)⟩)] :
            List (List ExecFetchReq × BatchEnv)).map Prod.fst).flatten.map
        (fun fr => (fr.replyId, (⟨none, some (GoErr.netError 7)⟩ : FetchRes))) ∧
     (senderRun ⟨32768, 0, 1, 250, 100, 256, true⟩ ⟨some (GoErr.netError 7), 1000⟩
        [([⟨("t"), 0, 100, 1024, 0, 1⟩],
          ⟨1050, 1055, Except.error (GoErr.netError 9)⟩)]).2.2 = []) :=
  ⟨by decide,
    spec_C7_broker_cooldown ⟨32768, 0, 1, 250, 100, 256, true⟩ (GoErr.netError 7) 1000
      [([⟨("t"), 0, 100, 1024, 0, 1⟩], ⟨1050, 1055, Except.error (GoErr.netError 9)⟩)]
      (by decide)⟩

/-- Claim C2 counterexample: the aggregator accepts a request and then
observes `requestsCh` closing before the sender ever takes the batch (the
close arm is always ready once `Stop()` runs, the handoff arm only when the
sender is free). The loop returns, the batch is dropped, the whole executor
run ends (`returned = true`, no batches left) and the accepted request has
received no reply — refuting "every FetchReq that was already queued still
receives a reply before the executor's loops exit". -/
theorem spec_C2_cex :
    (executorRun ⟨32768, 0, 1, 250, 100, 256, true⟩ ⟨none, 0⟩
        [.recv ⟨("t"), 0, 100, 1024, 0, 1⟩, .closedRecv] []).accepted =
      [⟨("t"), 0, 100, 1024, 0, 1⟩] ∧
    (executorRun ⟨32768, 0, 1, 250, 100, 256, true⟩ ⟨none, 0⟩
        [.recv ⟨("t"), 0, 100, 1024, 0, 1⟩, .closedRecv] []).replies = [] ∧
    (executorRun ⟨32768, 0, 1, 250, 100, 256, true⟩ ⟨none, 0⟩
        [.recv ⟨("t"), 0, 100, 1024, 0, 1⟩, .closedRecv] []).batches = [] ∧
    (executorRun ⟨32768, 0, 1, 250, 100, 256, true⟩ ⟨none, 0⟩
        [.recv ⟨("t"), 0, 100, 1024, 0, 1⟩, .closedRecv] []).aggState.returned =
      true := by decide

/-- Claim C2 (amended): every FetchReq handed over to the sender receives
exactly one reply (the reply targets are exactly the batched requests, in
order); the handed-over batches plus the batch still buffered in the
aggregator account exactly for every accepted request; and after the
aggregator observes the closed input channel nothing further is accepted or
handed over. Requests still buffered when the close is observed are
dropped without a reply (see the counterexample). -/
theorem spec_C2_reply_exactly_once (cfg : Config) (st0 : ExecState)
    (events : List AggEvent) (envs : List BatchEnv)
    (hlen : (executorRun cfg st0 events envs).batches.length ≤ envs.length) :
    (executorRun cfg st0 events envs).batches.flatten ++
        (executorRun cfg st0 events envs).aggState.batchRequest =
      (executorRun cfg st0 events envs).accepted ∧
    (executorRun cfg st0 events envs).replies.map Prod.fst =
      (executorRun cfg st0 events envs).batches.flatten.map ExecFetchReq.replyId ∧
    ((executorRun cfg st0 events envs).aggState.returned = true →
      ∀ more, aggRun ⟨[], false, false⟩ (events ++ more) =
        aggRun ⟨[], false, false⟩ events) := by
  refine ⟨?_, ?_, ?_⟩
  · have h := aggRun_conservation events ⟨[], false, false⟩
    simpa using h
  · have h := senderRun_reply_ids cfg
      ((aggRun ⟨[], false, false⟩ events).2.1.zip envs) st0
    have hfst : ((aggRun ⟨[], false, false⟩ events).2.1.zip envs).map Prod.fst =
        (aggRun ⟨[], false, false⟩ events).2.1 :=
      List.map_fst_zip _ _ hlen
    rw [hfst] at h
    exact h
  · intro hret more
    have hret2 : (aggRun ⟨[], false, false⟩ events).1.returned = true := hret
    rw [aggRun_append events more ⟨[], false, false⟩,
      aggRun_returned more _ hret2]
    simp

/-- Witness for the amended C2: one request accepted, handed over, then the
channel closes; the sender replies exactly once to it. -/
theorem spec_C2_reply_exactly_once_witness :
    (executorRun ⟨32768, 0, 1, 250, 100, 256, true⟩ ⟨none, 0⟩
        [.recv ⟨("t"), 0, 100, 1024, 0, 1⟩, .handoff, .closedRecv]
        [⟨200, 205, Except.error (GoErr.netError 5)⟩]).batches.length ≤
      ([⟨200, 205, Except.error (GoErr.netError 5)⟩] : List BatchEnv).length ∧
    ((executorRun ⟨32768, 0, 1, 250, 100, 256, true⟩ ⟨none, 0⟩
        [.recv ⟨("t"), 0, 100, 1024, 0, 1⟩, .handoff, .closedRecv]
        [⟨200, 205, Except.error (GoErr.netError 5)⟩]).batches.flatten ++
      (executorRun ⟨32768, 0, 1, 250, 100, 256, true⟩ ⟨none, 0⟩
        [.recv ⟨("t"), 0, 100, 1024, 0, 1⟩, .handoff, .closedRecv]
        [⟨200, 205, Except.error (GoErr.netError 5)⟩]).aggState.batchRequest =
      (executorRun ⟨32768, 0, 1, 250, 100, 256, true⟩ ⟨none, 0⟩
        [.recv ⟨("t"), 0, 100, 1024, 0, 1⟩, .handoff, .closedRecv]
        [⟨200, 205, Except.error (GoErr.netError 5)⟩]).accepted) ∧
    ((executorRun ⟨32768, 0, 1, 250, 100, 256, true⟩ ⟨none, 0⟩
        [.recv ⟨("t"), 0, 100, 1024, 0, 1⟩, .handoff, .closedRecv]
        [⟨200, 205, Except.error (GoErr.netError 5)⟩]).replies.map Prod.fst =
      (executorRun ⟨32768, 0, 1, 250, 100, 256, true⟩ ⟨none, 0⟩
        [.recv ⟨("t"), 0, 100, 1024, 0, 1⟩, .handoff, .closedRecv]
        [⟨200, 205, Except.error (GoErr.netError 5)⟩]).batches.flatten.map
        ExecFetchReq.replyId) :=
  ⟨by decide,
    (spec_C2_reply_exactly_once ⟨32768, 0, 1, 250, 100, 256, true⟩ ⟨none, 0⟩
      [.recv ⟨("t"), 0, 100, 1024, 0, 1⟩, .handoff, .closedRecv]
      [⟨200, 205, Except.error (GoErr.netError 5)⟩] (by decide)).1,
    (spec_C2_reply_exactly_once ⟨32768, 0, 1, 250, 100, 256, true⟩ ⟨none, 0⟩
      [.recv ⟨("t"), 0, 100, 1024, 0, 1⟩, .handoff, .closedRecv]
      [⟨200, 205, Except.error (GoErr.netError 5)⟩] (by decide)).2.1⟩

/-- `repliesOf` distributes over append. -/
theorem repliesOf_append (a b : List ProdOutput) :
    repliesOf (a ++ b) = repliesOf a ++ repliesOf b := by
  simp [repliesOf]

/-- `deadLettersOf` distributes over append. -/
theorem deadLettersOf_append (a b : List ProdOutput) :
    deadLettersOf (a ++ b) = deadLettersOf a ++ deadLettersOf b := by
  simp [deadLettersOf]

/-- `handleProduceResult` replies exactly once on a sync result's metadata
channel, with the result's error. -/
theorem repliesOf_handle (hasDeadCh : Bool) (r : ProduceRes) :
    repliesOf (handleProduceResult hasDeadCh r) =
      (match r.msg.metadata with | some c => [(c, r.err)] | none => []) := by
  cases hm : r.msg.metadata <;> cases he : r.err <;> cases hasDeadCh <;>
    simp [handleProduceResult, repliesOf, hm, he]

/-- `handleProduceResult` flushes exactly the failed results to the
dead-letter channel, when one is configured. -/
theorem deadLettersOf_handle (hasDeadCh : Bool) (r : ProduceRes) :
    deadLettersOf (handleProduceResult hasDeadCh r) =
      (match r.err with
       | some er => if hasDeadCh then [(r.msg, er)] else []
       | none => []) := by
  cases hm : r.msg.metadata <;> cases he : r.err <;> cases hasDeadCh <;>
    simp [handleProduceResult, deadLettersOf, hm, he]

/-- What one dispatcher step sends where: a handled result produces exactly
one reply when the submission was sync (with that result's error), and
exactly one dead-letter flush when the result failed and a dead-letter
channel is configured; no other event produces replies or dead letters. -/
theorem dispStep_outs (hasDeadCh : Bool) (s : DispState) (e : DispEvent)
    (s1 : DispState) (outs : List ProdOutput)
    (hstep : dispStep hasDeadCh s e = some (s1, outs)) :
    repliesOf outs = (match e with
      | DispEvent.result r =>
        (match r.msg.metadata with | some c => [(c, r.err)] | none => [])
      | _ => []) ∧
    deadLettersOf outs = (match e with
      | DispEvent.result r =>
        (match r.err with
         | some er => if hasDeadCh then [(r.msg, er)] else []
         | none => [])
      | _ => []) := by
  unfold dispStep at hstep
  split at hstep
  · simp only [Option.some.injEq, Prod.mk.injEq] at hstep
    obtain ⟨-, rfl⟩ := hstep
    exact ⟨rfl, rfl⟩
  · simp only [enterShutdown] at hstep
    split at hstep <;>
      (simp only [Option.some.injEq, Prod.mk.injEq] at hstep
       obtain ⟨-, rfl⟩ := hstep
       exact ⟨rfl, rfl⟩)
  · split at hstep
    · simp only [Option.some.injEq, Prod.mk.injEq] at hstep
      obtain ⟨-, rfl⟩ := hstep
      exact ⟨rfl, rfl⟩
    · exact Option.noConfusion hstep
  · simp only [Option.some.injEq, Prod.mk.injEq] at hstep
    obtain ⟨-, rfl⟩ := hstep
    exact ⟨repliesOf_handle hasDeadCh _, deadLettersOf_handle hasDeadCh _⟩
  · simp only [Option.some.injEq, Prod.mk.injEq] at hstep
    obtain ⟨-, rfl⟩ := hstep
    exact ⟨repliesOf_handle hasDeadCh _, deadLettersOf_handle hasDeadCh _⟩
  · split at hstep <;>
      (simp only [Option.some.injEq, Prod.mk.injEq] at hstep
       obtain ⟨-, rfl⟩ := hstep)
    · exact ⟨repliesOf_handle hasDeadCh _, deadLettersOf_handle hasDeadCh _⟩
    · constructor
      · rw [repliesOf_append, repliesOf_handle]
        simp [repliesOf]
      · rw [deadLettersOf_append, deadLettersOf_handle]
        simp [deadLettersOf]
  · simp only [Option.some.injEq, Prod.mk.injEq] at hstep
    obtain ⟨-, rfl⟩ := hstep
    exact ⟨rfl, rfl⟩
  · simp only [Option.some.injEq, Prod.mk.injEq] at hstep
    obtain ⟨-, rfl⟩ := hstep
    exact ⟨repliesOf_handle hasDeadCh _, deadLettersOf_handle hasDeadCh _⟩
  · simp only [Option.some.injEq, Prod.mk.injEq] at hstep
    obtain ⟨-, rfl⟩ := hstep
    exact ⟨rfl, rfl⟩
  · exact Option.noConfusion hstep

/-- `pendingMsgCount` moves by exactly +1 per accepted submission and −1
per result handled in a decrementing phase (main loop or drain loop), and
by nothing else. -/
theorem dispStep_pending (hasDeadCh : Bool) (s : DispState) (e : DispEvent)
    (s1 : DispState) (outs : List ProdOutput)
    (hstep : dispStep hasDeadCh s e = some (s1, outs)) :
    s1.pendingMsgCount = s.pendingMsgCount +
      ((acceptedPrefix e).length : Int) -
      ((handledPrePrefix s.phase e).length : Int) := by
  cases hp : s.phase <;> cases e <;>
    simp only [dispStep, enterShutdown, hp] at hstep
  all_goals try exact Option.noConfusion hstep
  all_goals try (split at hstep)
  all_goals try exact Option.noConfusion hstep
  all_goals
    simp only [Option.some.injEq, Prod.mk.injEq] at hstep
  all_goals
    obtain ⟨h1, -⟩ := hstep
  all_goals
    subst h1
  all_goals
    simp [hp, prePhase, acceptedPrefix, handledPrePrefix]

/-- A dispatcher step never moves from a non-decrementing phase (force-close
or finished) back to a decrementing one. -/
theorem dispStep_phase_not_pre (hasDeadCh : Bool) (s : DispState) (e : DispEvent)
    (s1 : DispState) (outs : List ProdOutput) (h : prePhase s.phase = false)
    (hstep : dispStep hasDeadCh s e = some (s1, outs)) :
    prePhase s1.phase = false := by
  cases hp : s.phase with
  | mainRecv => rw [hp] at h; simp [prePhase] at h
  | mainForward => rw [hp] at h; simp [prePhase] at h
  | drain => rw [hp] at h; simp [prePhase] at h
  | forceClose =>
    cases e <;> simp only [dispStep, hp] at hstep
    all_goals try exact Option.noConfusion hstep
    · simp only [Option.some.injEq, Prod.mk.injEq] at hstep
      obtain ⟨h1, -⟩ := hstep
      subst h1
      rw [hp]
      simp [prePhase]
    · simp only [Option.some.injEq, Prod.mk.injEq] at hstep
      obtain ⟨h1, -⟩ := hstep
      subst h1
      simp [prePhase]
  | finished =>
    cases e <;> simp only [dispStep, hp] at hstep <;> exact Option.noConfusion hstep

/-- Once the dispatcher has left the decrementing phases, no later handled
result is counted as decrementing. -/
theorem dispRun_no_pre_after_force (hasDeadCh : Bool) :
    ∀ (es : List DispEvent) (s : DispState), prePhase s.phase = false →
      (dispRun hasDeadCh s es).2.2.handledPre = [] := by
  intro es
  induction es with
  | nil => intro s _; rfl
  | cons e es ih =>
    intro s h
    cases hstep : dispStep hasDeadCh s e with
    | none =>
      simp only [dispRun, hstep]
      exact ih s h
    | some v =>
      obtain ⟨s1, outs⟩ := v
      have h1 := dispStep_phase_not_pre hasDeadCh s e s1 outs h hstep
      simp only [dispRun, hstep]
      rw [ih s1 h1]
      cases e <;> simp [handledPrePrefix, h]

/-- Claim C3 counterexample: one sync submission is accepted and forwarded
(`pendingMsgCount = 1`); the dispatcher channel closes, the drain phase
times out, and the submission's failure result arrives in the force-close
loop. The result IS handled — the sync reply channel receives its error —
but `pendingMsgCount` is not decremented (the force-close loop omits the
decrement), so the final count is 1, not accepted − handled = 0. -/
theorem spec_C3_cex :
    (dispRun true ⟨DispPhase.mainRecv, 0, none⟩
        [.accept ⟨("t"), [], [], some 1⟩, .forward, .dispatcherClosed, .timeout,
          .result ⟨⟨("t"), [], [], some 1⟩, some (GoErr.netError 3)⟩,
          .resultClosed]).1.pendingMsgCount = 1 ∧
    (dispRun true ⟨DispPhase.mainRecv, 0, none⟩
        [.accept ⟨("t"), [], [], some 1⟩, .forward, .dispatcherClosed, .timeout,
          .result ⟨⟨("t"), [], [], some 1⟩, some (GoErr.netError 3)⟩,
          .resultClosed]).2.2.accepted.length = 1 ∧
    ((dispRun true ⟨DispPhase.mainRecv, 0, none⟩
        [.accept ⟨("t"), [], [], some 1⟩, .forward, .dispatcherClosed, .timeout,
          .result ⟨⟨("t"), [], [], some 1⟩, some (GoErr.netError 3)⟩,
          .resultClosed]).2.2.handledPre ++
      (dispRun true ⟨DispPhase.mainRecv, 0, none⟩
        [.accept ⟨("t"), [], [], some 1⟩, .forward, .dispatcherClosed, .timeout,
          .result ⟨⟨("t"), [], [], some 1⟩, some (GoErr.netError 3)⟩,
          .resultClosed]).2.2.handledPost).length = 1 ∧
    repliesOf (dispRun true ⟨DispPhase.mainRecv, 0, none⟩
        [.accept ⟨("t"), [], [], some 1⟩, .forward, .dispatcherClosed, .timeout,
          .result ⟨⟨("t"), [], [], some 1⟩, some (GoErr.netError 3)⟩,
          .resultClosed]).2.1 = [(1, some (GoErr.netError 3))] ∧
    ¬ ((1 : Int) = 1 - 1) := by decide

/-- Claim C3 (amended): the dispatcher acknowledges every handled result
exactly once — each handled sync result produces exactly one reply on its
metadata channel carrying that result's error, each handled failed result
produces exactly one dead-letter flush (when a dead-letter channel is
configured), and a fire-and-forget success produces no output at all; and
`pendingMsgCount` equals its initial value plus one per accepted
submission minus one per result handled BEFORE the force-close loop —
results handled after the sink's `AsyncClose` are acknowledged but do not
decrement the counter. -/
theorem spec_C3_acks (hasDeadCh : Bool) (s : DispState) (es : List DispEvent) :
    (dispRun hasDeadCh s es).1.pendingMsgCount =
      s.pendingMsgCount + ((dispRun hasDeadCh s es).2.2.accepted.length : Int) -
        ((dispRun hasDeadCh s es).2.2.handledPre.length : Int) ∧
    repliesOf (dispRun hasDeadCh s es).2.1 =
      ((dispRun hasDeadCh s es).2.2.handledPre ++
        (dispRun hasDeadCh s es).2.2.handledPost).filterMap
        (fun r => match r.msg.metadata with
          | some c => some (c, r.err)
          | none => none) ∧
    deadLettersOf (dispRun hasDeadCh s es).2.1 =
      ((dispRun hasDeadCh s es).2.2.handledPre ++
        (dispRun hasDeadCh s es).2.2.handledPost).filterMap
        (fun r => match r.err with
          | some e => if hasDeadCh then some (r.msg, e) else none
          | none => none) ∧
    (∀ r : ProduceRes, r.msg.metadata = none → r.err = none →
      handleProduceResult hasDeadCh r = []) := by
  induction es generalizing s with
  | nil =>
    refine ⟨by simp [dispRun], by simp [dispRun, repliesOf],
      by simp [dispRun, deadLettersOf], ?_⟩
    intro r h1 h2
    simp [handleProduceResult, h1, h2]
  | cons e es ih =>
    cases hstep : dispStep hasDeadCh s e with
    | none =>
      simp only [dispRun, hstep]
      exact ih s
    | some v =>
      obtain ⟨s1, outs⟩ := v
      obtain ⟨ih1, ih2, ih3, ih4⟩ := ih s1
      obtain ⟨ho1, ho2⟩ := dispStep_outs hasDeadCh s e s1 outs hstep
      have hpn := dispStep_pending hasDeadCh s e s1 outs hstep
      simp only [dispRun, hstep]
      refine ⟨?_, ?_, ?_, ih4⟩
      · show (dispRun hasDeadCh s1 es).1.pendingMsgCount = _
        rw [ih1, hpn]
        simp only [List.length_append]
        push_cast
        ring
      · show repliesOf (outs ++ (dispRun hasDeadCh s1 es).2.1) = _
        rw [repliesOf_append, ho1, ih2]
        cases e with
        | result r =>
          cases hpre : prePhase s.phase with
          | true =>
            cases hm : r.msg.metadata <;>
              simp [handledPrePrefix, handledPostPrefix, hpre, hm,
                List.filterMap_append]
          | false =>
            have hnp : prePhase s1.phase = false :=
              dispStep_phase_not_pre hasDeadCh s (DispEvent.result r) s1 outs hpre hstep
            rw [dispRun_no_pre_after_force hasDeadCh es s1 hnp]
            cases hm : r.msg.metadata <;>
              simp [handledPrePrefix, handledPostPrefix, hpre, hm,
                List.filterMap_append]
        | accept m => simp [handledPrePrefix, handledPostPrefix, acceptedPrefix]
        | dispatcherClosed => simp [handledPrePrefix, handledPostPrefix]
        | forward => simp [handledPrePrefix, handledPostPrefix]
        | timeout => simp [handledPrePrefix, handledPostPrefix]
        | resultClosed => simp [handledPrePrefix, handledPostPrefix]
      · show deadLettersOf (outs ++ (dispRun hasDeadCh s1 es).2.1) = _
        rw [deadLettersOf_append, ho2, ih3]
        cases e with
        | result r =>
          cases hpre : prePhase s.phase with
          | true =>
            cases he : r.err <;> cases hasDeadCh <;>
              simp [handledPrePrefix, handledPostPrefix, hpre, he,
                List.filterMap_append]
          | false =>
            have hnp : prePhase s1.phase = false :=
              dispStep_phase_not_pre hasDeadCh s (DispEvent.result r) s1 outs hpre hstep
            rw [dispRun_no_pre_after_force hasDeadCh es s1 hnp]
            cases he : r.err <;> cases hasDeadCh <;>
              simp [handledPrePrefix, handledPostPrefix, hpre, he,
                List.filterMap_append]
        | accept m => simp [handledPrePrefix, handledPostPrefix]
        | dispatcherClosed => simp [handledPrePrefix, handledPostPrefix]
        | forward => simp [handledPrePrefix, handledPostPrefix]
        | timeout => simp [handledPrePrefix, handledPostPrefix]
        | resultClosed => simp [handledPrePrefix, handledPostPrefix]
